import Mathlib

/-!
Shallow embedding of `frontend/dockerfile/parser/parser.go` (buildkit
Dockerfile parser): the line-continuation and tree-assembly engine.

Conventions of the embedding:
* A physical line is a `String` with no `'\n'` in it (what
  `bufio.Scanner`/`ScanLines` hands to the loop); the input stream is a
  `List String`.
* Go byte lengths are modelled as character counts (exact for ASCII input;
  every length-sensitive theorem below uses ASCII data).
* Go regexp operations are translated into explicit character-list
  computations; each translation carries a comment with the source regex.
* Machine integers (`int` line counters, `StartLine`/`endLine`) are `Nat`
  resp. `Int`; no overflow is reachable at these magnitudes.
* Fallible Go functions returning `error` become `Except GoError`.
-/

namespace Buildkit

/-- Errors produced by `parser.go` (each constructor carries the data its
`fmt.Errorf`/`errors.New` message mentions). -/
inductive GoError where
  /-- `"invalid ESCAPE '%s'. Must be ` or \"` from `setEscapeToken`. -/
  | invalidEscape (c : Char)
  /-- `"only one escape parser directive can be used"` from `possibleParserDirective`. -/
  | duplicateEscape
  /-- `"file with no instructions."` from `Parse`. -/
  | noInstructions
  /-- `"dockerfile line greater than max allowed size of %d"` from
  `handleScannerError` (the `%d` is `bufio.MaxScanTokenSize-1`). -/
  | lineTooLong (max : Nat)
  /-- an error bubbled up from `newNodeFromLine` (splitCommand / the
  per-instruction argument parsers of `line_parsers.go`). -/
  | dispatchError (msg : String)
deriving DecidableEq, Repr

/-- `unicode.IsSpace` (the predicate behind `bytes.TrimLeftFunc` in
`trimWhitespace`, parser.go:294-296). -/
def goIsSpace (c : Char) : Bool :=
  c == '\t' || c == '\n' || c == '\x0b' || c == '\x0c' || c == '\r' || c == ' ' ||
  c == '\x85' || c == '\xa0' || c.val == 0x1680 ||
  (0x2000 ≤ c.val && c.val ≤ 0x200a) ||
  c.val == 0x2028 || c.val == 0x2029 || c.val == 0x202f || c.val == 0x205f ||
  c.val == 0x3000

/-- the character class `[ \t]` used by `tokenEscapeCommand` and
`lineEscapeRegex`. -/
def isSpaceTab (c : Char) : Bool :=
  c == ' ' || c == '\t'

/-- ASCII fragment of `strings.ToLower` on one character (the directive
lines the parser inspects are ASCII). -/
def charToLower (c : Char) : Char :=
  if 'A' ≤ c ∧ c ≤ 'Z' then Char.ofNat (c.toNat + 32) else c

/-- `strings.ToLower` (parser.go:119). -/
def goToLower (s : String) : String :=
  ⟨s.data.map charToLower⟩

/-- `trimWhitespace` (parser.go:294-296): strip leading Unicode whitespace. -/
def trimWhitespace (s : String) : String :=
  ⟨s.data.dropWhile goIsSpace⟩

/-- `trimComments` (parser.go:290-292): `tokenComment.ReplaceAll(src, [])`
with `tokenComment = ^#.*$`.  Go's `^`/`$` match only at the start/end of
the text and `.` does not match `'\n'`, so on a newline-free physical line
the regex matches exactly when the line starts with `'#'`, and then the
whole line is replaced by the empty string. -/
def trimComments (src : String) : String :=
  match src.data with
  | '#' :: _ => ""
  | _ => src

/-- `isComment` (parser.go:298-300): `tokenComment.Match(trimWhitespace(line))`. -/
def isComment (line : String) : Bool :=
  match (trimWhitespace line).data with
  | '#' :: _ => true
  | _ => false

/-- `isEmptyContinuationLine` (parser.go:302-304). -/
def isEmptyContinuationLine (line : String) : Bool :=
  (trimWhitespace line).data.isEmpty

/-- `utf8bom = []byte{0xEF, 0xBB, 0xBF}` decodes to the single character
U+FEFF; `bytes.TrimPrefix(bytesRead, utf8bom)` (parser.go:229). -/
def stripBOM (s : String) : String :=
  match s.data with
  | '﻿' :: rest => ⟨rest⟩
  | _ => s

/-- `tokenEscapeCommand = ^#[ \t]*escape[ \t]*=[ \t]*(?P<escapechar>.).*$`
applied to `strings.ToLower(line)` (parser.go:84,119); returns the
`escapechar` capture when the line matches.  The trailing `[ \t]*(.)` is
greedy with backtracking: the capture is the first character after the
maximal run of blanks that still leaves one character, so when everything
after `=` is blanks the capture is the last blank. -/
def matchEscapeDirective (line : String) : Option Char :=
  match (goToLower line).data with
  | '#' :: r0 =>
    let r1 := r0.dropWhile isSpaceTab
    if "escape".data.isPrefixOf r1 then
      match (r1.drop 6).dropWhile isSpaceTab with
      | '=' :: r3 =>
        match h : r3 with
        | [] => none
        | _ :: _ =>
          match r3.dropWhile isSpaceTab with
          | c :: _ => some c
          | [] => some (r3.getLast (by simp [h]))
      | _ => none
    else none
  | _ => none

/-- `Directive` (parser.go:94-99).  `lineEscapeRegex` is compiled from
`escapeToken` alone (`setEscapeToken`, parser.go:107), so it is not stored
separately: `continuateLine` recomputes the match from `escapeToken`. -/
structure Directive where
  escapeToken : Char
  processingComplete : Bool
  escapeSeen : Bool
deriving DecidableEq, Repr

/-- `DefaultEscapeToken` (parser.go:90). -/
def DefaultEscapeToken : Char := '\\'

/-- `setEscapeToken` (parser.go:102-109); the argument is the one-character
`escapechar` capture. -/
def setEscapeToken (d : Directive) (c : Char) : Except GoError Directive :=
  if c = '`' ∨ c = '\\' then .ok { d with escapeToken := c }
  else .error (.invalidEscape c)

/-- `possibleParserDirective` (parser.go:114-134).  Matching the directive
pattern returns early, so it does not set `processingComplete`; only a
non-matching line closes the directive window. -/
def possibleParserDirective (d : Directive) (line : String) : Except GoError Directive :=
  if d.processingComplete then .ok d
  else
    match matchEscapeDirective line with
    | some c =>
        if d.escapeSeen then .error .duplicateEscape
        else setEscapeToken { d with escapeSeen := true } c
    | none => .ok { d with processingComplete := true }

/-- `NewDefaultDirective` (parser.go:137-141). -/
def NewDefaultDirective : Directive :=
  { escapeToken := DefaultEscapeToken, processingComplete := false, escapeSeen := false }

/-- `lineJSONArrayContinuator = [^"]*\[[^\]]*$` used via `MatchString`
(parser.go:86,313).  The search is unanchored and `[^"]*` may match the
empty string, so the regex matches exactly when some `'['` has no `']'`
anywhere after it, i.e. when the last `'['`/`']'` occurring in the line is
a `'['`.  The fold records whether the most recent bracket seen is `'['`. -/
def lineJSONArrayContinuator (line : String) : Bool :=
  line.data.foldl (fun b c => if c = '[' then true else if c = ']' then false else b) false

/-- `continuateLine` (parser.go:308-318).  `lineEscapeRegex` is
`` \<esc>[ \t]*$ `` (parser.go:107): it matches exactly when the line,
after its maximal trailing run of blanks, ends with the escape token, and
`ReplaceAllString(line, "")` then removes that token and the trailing
blanks.  We compute on the reversed character list. -/
def continuateLine (line : String) (d : Directive) : String × Bool :=
  match line.data.reverse.dropWhile isSpaceTab with
  | c :: restRev =>
    if c = d.escapeToken then (⟨restRev.reverse⟩, false)
    else if lineJSONArrayContinuator line then (line, false)
    else (line, true)
  | [] =>
    if lineJSONArrayContinuator line then (line, false)
    else (line, true)

/-- `processLine` (parser.go:322-327).  Go evaluates both
`trimComments(token)` and `d.possibleParserDirective(string(token))` on the
(possibly left-trimmed) token; an error discards the trimmed bytes. -/
def processLine (d : Directive) (token : String) (stripLeftWhitespace : Bool) :
    Except GoError (String × Directive) :=
  let token := if stripLeftWhitespace then trimWhitespace token else token
  match possibleParserDirective d token with
  | .error e => .error e
  | .ok d' => .ok (trimComments token, d')

/-- `Node` (parser.go:30-39).  `Next`, `Attributes` and `Flags` are
populated by `splitCommand` and the argument parsers of
`line_parsers.go`, which is not part of the sources; the driver loop only
ever writes `Value`, `Original`, the line span, and (for the root)
`Children`, so those are the fields modelled. -/
structure Node where
  value : String
  original : String
  startLine : Int := 0
  endLine : Int := 0
  children : List Node := []

/-- `Result` (parser.go:201-205). -/
structure Result where
  AST : Node
  escapeToken : Char
  warnings : List String

/-- `bufio.MaxScanTokenSize = 64 * 1024`: the default `bufio.Scanner`
buffer limit hit by `Parse` (byte length modelled as character count). -/
def maxScanTokenSize : Nat := 65536

/-- a physical line the default `bufio.Scanner` cannot return: `Scan`
reports `false` and `Err()` is `bufio.ErrTooLong`. -/
def tooLongLine (s : String) : Bool :=
  maxScanTokenSize ≤ s.data.length

/-- the per-statement warning appended at parser.go:265. -/
def emptyContinuationWarning (line : String) : String :=
  "[WARNING]: Empty continuation line found in:\n    " ++ line

/-- the trailing deprecation notice appended at parser.go:276. -/
def deprecationWarning : String :=
  "[WARNING]: Empty continuation lines will become errors in a future release."

/-- The mutable state of `Parse` (parser.go:217-273): the directive, the
`currentLine` counter, the root node under construction
(`root.StartLine`/`root.endLine`/`root.Children`), and the warnings slice.
`trace` is a ghost field invisible to the Go outputs: it records, per
dispatched statement, the assembled logical line and whether the statement
had an empty continuation line (used to state the warning bookkeeping
theorems). -/
structure PState where
  d : Directive
  cur : Nat
  rootStart : Int
  rootEnd : Int
  children : List Node
  warnings : List String
  trace : List (String × Bool)

/-- `root := &Node{StartLine: -1}` plus the zero values (parser.go:218-222). -/
def initState : PState :=
  { d := NewDefaultDirective, cur := 0, rootStart := -1, rootEnd := 0,
    children := [], warnings := [], trace := [] }

/-- `AddChild` (parser.go:72-79) acting on the root under construction. -/
def addChild (st : PState) (child : Node) (startLine endLine : Int) : PState :=
  { st with
    rootStart := if st.rootStart < 0 then startLine else st.rootStart,
    rootEnd := endLine,
    children := st.children ++ [{ child with startLine := startLine, endLine := endLine }] }

/-- Modelled from the spec: `newNodeFromLine` calls `splitCommand` and the
dispatch table of `line_parsers.go`, which is not part of the sources.
§4.5 of the spec: the keyword is the first whitespace-delimited token, an
unregistered keyword is routed to a pass-through parser producing an empty
chain and empty attributes, and a registered argument parser may fail with
an argument-syntax error.  The driver `loop` below is therefore
parametrised over the dispatcher `df`; `specDispatch` is the pass-through
instance (never fails, records the keyword and the original line). -/
def specNode (line : String) : Node :=
  { value := ⟨(trimWhitespace line).data.takeWhile (fun c => !goIsSpace c)⟩,
    original := line, startLine := 0, endLine := 0, children := [] }

def specDispatch (line : String) (_d : Directive) : Except GoError Node :=
  .ok (specNode line)

/-- End of one statement in `Parse` (parser.go:264-272): append the
empty-continuation warning if one was seen, dispatch the assembled line,
and `AddChild` with the recorded span.  `tooLong` is threaded through: when
the statement ended because the scanner hit an over-long line, the outer
loop also stops (`scanner.Scan()` keeps returning `false` after an error). -/
def finishStatement (df : String → Directive → Except GoError Node) (st : PState)
    (startLine : Nat) (line : String) (hasEmpty : Bool) (tooLong : Bool) :
    Except GoError (PState × Bool) :=
  let st := if hasEmpty then { st with warnings := st.warnings ++ [emptyContinuationWarning line] } else st
  match df line st.d with
  | .error e => .error e
  | .ok child =>
      .ok (addChild { st with trace := st.trace ++ [(line, hasEmpty)] } child startLine st.cur, tooLong)

/-- The scanning loop of `Parse` (parser.go:225-273) as one state machine
over the remaining physical lines.  `mode = none` is the head of the outer
loop (looking for the start of a statement); `mode = some (startLine, line,
hasEmpty)` is the inner continuation loop with the accumulated logical
line.  Each step consumes one physical line (or stops at a line the
scanner refuses); the returned `Bool` reports whether scanning stopped on
`bufio.ErrTooLong`. -/
def loop (df : String → Directive → Except GoError Node) (st : PState)
    (mode : Option (Nat × String × Bool)) (rest : List String) :
    Except GoError (PState × Bool) :=
  match rest with
  | [] =>
    match mode with
    | none => .ok (st, false)
    | some (startLine, line, hasEmpty) =>
      -- input exhausted mid-continuation: the inner `scanner.Scan()`
      -- returns false and the statement is still dispatched
      finishStatement df st startLine line hasEmpty false
  | raw :: rest' =>
    match mode with
    | none =>
      if tooLongLine raw then .ok (st, true)
      else
        match processLine st.d raw true with
        | .error e => .error e
        | .ok (bytesRead, d1) =>
          let st1 := { st with d := d1, cur := st.cur + 1 }
          match continuateLine bytesRead d1 with
          | (line, true) =>
            if line = "" then loop df st1 none rest'   -- blank line: skip
            else
              match finishStatement df st1 st1.cur line false false with
              | .error e => .error e
              | .ok (st2, _) => loop df st2 none rest'
          | (line, false) => loop df st1 (some (st1.cur, line, false)) rest'
    | some (startLine, line, hasEmpty) =>
      if tooLongLine raw then
        -- inner `scanner.Scan()` fails on the over-long line: dispatch the
        -- statement, then the outer loop also sees `Scan() == false`
        finishStatement df st startLine line hasEmpty true
      else
        match processLine st.d raw false with
        | .error e => .error e
        | .ok (bytesRead, d1) =>
          let st1 := { st with d := d1, cur := st.cur + 1 }
          if isComment raw then loop df st1 (some (startLine, line, hasEmpty)) rest'
          else if isEmptyContinuationLine bytesRead then
            loop df st1 (some (startLine, line, true)) rest'
          else
            match continuateLine (line ++ bytesRead) d1 with
            | (line', true) =>
              match finishStatement df st1 startLine line' hasEmpty false with
              | .error e => .error e
              | .ok (st2, _) => loop df st2 none rest'
            | (line', false) => loop df st1 (some (startLine, line', hasEmpty)) rest'

/-- The BOM strip of `Parse` (parser.go:227-230) applies to the first
physical line only, so it is hoisted out of the loop. -/
def scannedLines (lines : List String) : List String :=
  match lines with
  | [] => []
  | l :: ls => stripBOM l :: ls

/-- `Parse` (parser.go:217-288).  Go returns the pair `(*Result, error)`;
both components can be non-nil (the final `return` pairs the built result
with `handleScannerError`), hence the return type
`Option Result × Option GoError`. -/
def Parse (df : String → Directive → Except GoError Node) (lines : List String) :
    Option Result × Option GoError :=
  match loop df initState none (scannedLines lines) with
  | .error e => (none, some e)
  | .ok (st, tooLong) =>
    let warnings := if st.warnings.length > 0 then st.warnings ++ [deprecationWarning] else st.warnings
    if st.rootStart < 0 then (none, some .noInstructions)
    else
      (some { AST := { value := "", original := "", startLine := st.rootStart,
                       endLine := st.rootEnd, children := st.children },
              escapeToken := st.d.escapeToken, warnings := warnings },
       if tooLong then some (.lineTooLong (maxScanTokenSize - 1)) else none)

/-! ## Specification-level predicates for the Continuation Resolver -/

/-- Spec reading of check 1 of the Continuation Resolver: the text, after a
trailing run of blanks, ends with the active escape character. -/
def EndsWithEscape (s : String) (esc : Char) : Prop :=
  ∃ u v, s.data = u ++ esc :: v ∧ ∀ c ∈ v, isSpaceTab c = true

/-- Spec reading of check 2 without the quote clause: the text contains an
opening `[` with no closing `]` anywhere after it up to end of text. -/
def UnclosedBracket (s : String) : Prop :=
  ∃ t u, s.data = t ++ '[' :: u ∧ ']' ∉ u

/-- Claim C1's version of the bracket check, taken from its words: an
opening `[` not matched by a closing `]` up to end of text, *with no quote
after the last `[`*. -/
def claimBracketCheck (line : String) : Bool :=
  let afterLastOpenRev := line.data.reverse.takeWhile (fun c => c != '[')
  line.data.contains '[' && !(afterLastOpenRev.contains ']') &&
    !(afterLastOpenRev.contains '"')

/-- The Continuation Resolver exactly as claim C1 describes it: the escape
check, then the bracket check including the no-quote-after-the-last-`[`
qualifier. -/
def claimContinuate (line : String) (d : Directive) : String × Bool :=
  match line.data.reverse.dropWhile isSpaceTab with
  | c :: restRev =>
    if c = d.escapeToken then (⟨restRev.reverse⟩, false)
    else if claimBracketCheck line then (line, false) else (line, true)
  | [] => if claimBracketCheck line then (line, false) else (line, true)

/-- Scanning the characters from the right, the first `[`/`]` encountered
decides the bracket-continuation state (helper for relating the fold in
`lineJSONArrayContinuator` to `UnclosedBracket`). -/
def bracketStateRev : List Char → Bool
  | [] => false
  | c :: r => if c = '[' then true else if c = ']' then false else bracketStateRev r

theorem dropWhile_append_of_all {p : Char → Bool} (a b : List Char)
    (h : ∀ c ∈ a, p c = true) :
    List.dropWhile p (a ++ b) = List.dropWhile p b := by
  induction a with
  | nil => simp
  | cons x xs ih =>
    simp only [List.cons_append, List.dropWhile_cons, h x (List.mem_cons_self x xs), if_true]
    exact ih fun c hc => h c (List.mem_cons_of_mem _ hc)

theorem lineJSONArrayContinuator_eq_bracketStateRev (s : String) :
    lineJSONArrayContinuator s = bracketStateRev s.data.reverse := by
  show s.data.foldl _ false = _
  induction s.data using List.reverseRecOn with
  | nil => rfl
  | append_singleton cs c ih =>
    rw [List.foldl_append, List.reverse_append]
    by_cases h1 : c = '['
    · simp [h1, bracketStateRev]
    · by_cases h2 : c = ']'
      · simp [h1, h2, bracketStateRev]
      · simp only [List.foldl_cons, List.foldl_nil, if_neg h1, if_neg h2,
          List.reverse_cons, List.singleton_append, bracketStateRev]
        exact ih

theorem bracketStateRev_iff (r : List Char) :
    bracketStateRev r = true ↔ ∃ v w, r = v ++ '[' :: w ∧ ']' ∉ v ∧ '[' ∉ v := by
  induction r with
  | nil =>
    constructor
    · intro h
      exact absurd h (by simp [bracketStateRev])
    · rintro ⟨v, w, h, -, -⟩
      exact absurd h (by simp)
  | cons c r ih =>
    by_cases h1 : c = '['
    · subst h1
      constructor
      · intro _
        exact ⟨[], r, rfl, by simp, by simp⟩
      · intro _
        simp [bracketStateRev]
    · by_cases h2 : c = ']'
      · subst h2
        constructor
        · intro h
          exact absurd h (by simp [bracketStateRev, h1])
        · rintro ⟨v, w, h, hv, -⟩
          rcases v with _ | ⟨x, v⟩
          · rw [List.nil_append] at h
            injection h with hx htail
            exact absurd hx h1
          · rw [List.cons_append] at h
            injection h with hx htail
            exact absurd (hx ▸ List.mem_cons_self x v) hv
      · have hstep : bracketStateRev (c :: r) = bracketStateRev r := by
          simp [bracketStateRev, h1, h2]
        rw [hstep, ih]
        constructor
        · rintro ⟨v, w, rfl, hv, hv2⟩
          refine ⟨c :: v, w, rfl, ?_, ?_⟩
          · simp only [List.mem_cons, not_or]
            exact ⟨fun h => h2 h.symm, hv⟩
          · simp only [List.mem_cons, not_or]
            exact ⟨fun h => h1 h.symm, hv2⟩
        · rintro ⟨v, w, h, hv, hv2⟩
          rcases v with _ | ⟨x, v⟩
          · rw [List.nil_append] at h
            injection h with hx htail
            exact absurd hx h1
          · rw [List.cons_append] at h
            injection h with hx htail
            exact ⟨v, w, htail,
              fun hm => hv (List.mem_cons_of_mem _ hm),
              fun hm => hv2 (List.mem_cons_of_mem _ hm)⟩

/-- Every unmatched-`[` split can be refined to one at the *last* `[`. -/
theorem unclosed_split_refine :
    ∀ (n : Nat) (u t cs : List Char), u.length ≤ n → ']' ∉ u →
      cs = t ++ '[' :: u → ∃ t' u', cs = t' ++ '[' :: u' ∧ ']' ∉ u' ∧ '[' ∉ u' := by
  intro n
  induction n with
  | zero =>
    intro u t cs hlen hu hcs
    have : u = [] := List.eq_nil_of_length_eq_zero (Nat.le_zero.mp hlen)
    exact ⟨t, u, hcs, hu, by simp [this]⟩
  | succ n ih =>
    intro u t cs hlen hu hcs
    by_cases hmem : '[' ∈ u
    · obtain ⟨s1, s2, rfl⟩ := List.append_of_mem hmem
      have hlen2 : s2.length ≤ n := by
        have := hlen
        simp only [List.length_append, List.length_cons] at this
        omega
      have hu2 : ']' ∉ s2 := fun hm => hu (by simp [hm])
      exact ih s2 (t ++ '[' :: s1) cs hlen2 hu2 (by simp [hcs])
    · exact ⟨t, u, hcs, hu, hmem⟩

theorem unclosedBracket_iff_continuator (s : String) :
    UnclosedBracket s ↔ lineJSONArrayContinuator s = true := by
  rw [lineJSONArrayContinuator_eq_bracketStateRev, bracketStateRev_iff]
  constructor
  · rintro ⟨t, u, hsplit, hu⟩
    obtain ⟨t', u', hsplit', hu', hu2'⟩ :=
      unclosed_split_refine u.length u t s.data le_rfl hu hsplit
    refine ⟨u'.reverse, t'.reverse, ?_, by simpa using hu', by simpa using hu2'⟩
    rw [hsplit']
    simp
  · rintro ⟨v, w, hsplit, hv, -⟩
    refine ⟨w.reverse, v.reverse, ?_, by simpa using hv⟩
    have := congrArg List.reverse hsplit
    simpa using this

theorem continuator_eq_false_of_not_unclosed (s : String)
    (h : ¬ UnclosedBracket s) : lineJSONArrayContinuator s = false := by
  rcases Bool.eq_false_or_eq_true (lineJSONArrayContinuator s) with hf | ht
  · exact absurd ((unclosedBracket_iff_continuator s).mpr hf) h
  · exact ht

/-- If the line, with trailing blanks dropped (on the reversed characters),
starts with the escape token, it ends with the escape token in the sense of
`EndsWithEscape`. -/
theorem endsWithEscape_of_dropWhile (s : String) (esc : Char) (restRev : List Char)
    (hdrop : s.data.reverse.dropWhile isSpaceTab = esc :: restRev) :
    EndsWithEscape s esc := by
  refine ⟨restRev.reverse, (s.data.reverse.takeWhile isSpaceTab).reverse, ?_, ?_⟩
  · have h1 : s.data.reverse.takeWhile isSpaceTab ++ (esc :: restRev) = s.data.reverse := by
      have := List.takeWhile_append_dropWhile isSpaceTab s.data.reverse
      rw [hdrop] at this
      exact this
    have h2 := congrArg List.reverse h1
    simp only [List.reverse_append, List.reverse_cons, List.reverse_reverse] at h2
    rw [List.append_assoc, List.singleton_append] at h2
    exact h2.symm
  · intro x hx
    rw [List.mem_reverse] at hx
    exact List.mem_takeWhile_imp hx

/-- Claim C1 (amended): the Continuation Resolver applies the escape check
and then the bare unmatched-`[` check (no quote qualifier), in that
order. -/
theorem continuateLine_resolution (s : String) (d : Directive)
    (htok : d.escapeToken = '\\' ∨ d.escapeToken = '`') :
    (∀ u v, s.data = u ++ d.escapeToken :: v → (∀ c ∈ v, isSpaceTab c = true) →
        continuateLine s d = (⟨u⟩, false)) ∧
    (¬ EndsWithEscape s d.escapeToken → UnclosedBracket s →
        continuateLine s d = (s, false)) ∧
    (¬ EndsWithEscape s d.escapeToken → ¬ UnclosedBracket s →
        continuateLine s d = (s, true)) := by
  have hesc : isSpaceTab d.escapeToken = false := by
    rcases htok with h | h <;> simp [h, isSpaceTab]
  refine ⟨?_, ?_, ?_⟩
  · intro u v hsplit hv
    have hrev : s.data.reverse = v.reverse ++ d.escapeToken :: u.reverse := by
      rw [hsplit]; simp
    have hdrop : s.data.reverse.dropWhile isSpaceTab = d.escapeToken :: u.reverse := by
      rw [hrev, dropWhile_append_of_all _ _ (by simpa using hv)]
      simp [List.dropWhile_cons, hesc]
    unfold continuateLine
    rw [hdrop]
    simp
  · intro hne hub
    unfold continuateLine
    rcases hd : s.data.reverse.dropWhile isSpaceTab with _ | ⟨c, restRev⟩
    · simp [(unclosedBracket_iff_continuator s).mp hub]
    · have hc : c ≠ d.escapeToken := fun hc =>
        hne (endsWithEscape_of_dropWhile s _ restRev (hc ▸ hd))
      simp [if_neg hc, (unclosedBracket_iff_continuator s).mp hub]
  · intro hne hnub
    have hcont := continuator_eq_false_of_not_unclosed s hnub
    unfold continuateLine
    rcases hd : s.data.reverse.dropWhile isSpaceTab with _ | ⟨c, restRev⟩
    · simp [hcont]
    · have hc : c ≠ d.escapeToken := fun hc =>
        hne (endsWithEscape_of_dropWhile s _ restRev (hc ▸ hd))
      simp [if_neg hc, hcont]

/-! ## Driver-loop lemmas -/

/-- a dispatcher that never fails (the spec's pass-through behaviour for
unregistered keywords; `specDispatch` is one). -/
def DispatchTotal (df : String → Directive → Except GoError Node) : Prop :=
  ∀ l d, ∃ n, df l d = .ok n

theorem specDispatch_total : DispatchTotal specDispatch :=
  fun _ _ => ⟨_, rfl⟩

/-- Once the directive window is closed, `possibleParserDirective` is a
no-op: it neither errors nor changes the directive. -/
theorem possibleParserDirective_closed (d : Directive) (h : d.processingComplete = true)
    (line : String) : possibleParserDirective d line = .ok d := by
  unfold possibleParserDirective
  rw [if_pos h]

theorem processLine_closed (d : Directive) (h : d.processingComplete = true)
    (token : String) (strip : Bool) :
    processLine d token strip =
      .ok (trimComments (if strip then trimWhitespace token else token), d) := by
  simp only [processLine, possibleParserDirective_closed d h]

theorem finishStatement_total (df : String → Directive → Except GoError Node)
    (hdf : DispatchTotal df) (st : PState) (startLine : Nat) (line : String)
    (hasEmpty tooLong : Bool) :
    ∃ st2, finishStatement df st startLine line hasEmpty tooLong = .ok (st2, tooLong) ∧
      st2.d = st.d := by
  obtain ⟨n, hn⟩ := hdf line (if hasEmpty then { st with warnings := st.warnings ++ [emptyContinuationWarning line] } else st).d
  unfold finishStatement
  rcases hasEmpty with _ | _ <;>
    simp only [if_neg, if_pos, Bool.false_eq_true, ite_false, ite_true] at hn ⊢ <;>
    rw [hn] <;>
    exact ⟨_, rfl, rfl⟩

/-- With the directive window closed, a total dispatcher, and no over-long
line remaining, the driver loop always succeeds, does not stop on a
scanner error, and leaves the directive (in particular the escape token)
unchanged. -/
theorem loop_closed (df : String → Directive → Except GoError Node)
    (hdf : DispatchTotal df) :
    ∀ (rest : List String) (st : PState) (mode : Option (Nat × String × Bool)),
      st.d.processingComplete = true →
      (∀ l ∈ rest, tooLongLine l = false) →
      ∃ st2, loop df st mode rest = .ok (st2, false) ∧ st2.d = st.d := by
  intro rest
  induction rest with
  | nil =>
    intro st mode hc _
    rcases mode with _ | ⟨sl, line, hasEmpty⟩
    · exact ⟨st, rfl, rfl⟩
    · obtain ⟨st2, h2, hd2⟩ := finishStatement_total df hdf st sl line hasEmpty false
      exact ⟨st2, h2, hd2⟩
  | cons raw rest ih =>
    intro st mode hc hT
    have hTraw : tooLongLine raw = false := hT raw (List.mem_cons_self _ _)
    have hTrest : ∀ l ∈ rest, tooLongLine l = false :=
      fun l hl => hT l (List.mem_cons_of_mem _ hl)
    rcases mode with _ | ⟨sl, line, hasEmpty⟩
    · rcases hcl : continuateLine (trimComments (trimWhitespace raw)) st.d with ⟨line, flag⟩
      rcases flag with _ | _
      · simp only [loop, hTraw, Bool.false_eq_true, if_false,
          processLine_closed st.d hc raw true, if_true, hcl]
        exact ih { st with d := st.d, cur := st.cur + 1 } (some (st.cur + 1, line, false)) hc hTrest
      · by_cases hline : line = ""
        · simp only [loop, hTraw, Bool.false_eq_true, if_false,
            processLine_closed st.d hc raw true, if_true, hcl, if_pos hline]
          exact ih { st with d := st.d, cur := st.cur + 1 } none hc hTrest
        · obtain ⟨st2, h2, hd2⟩ := finishStatement_total df hdf
            { st with d := st.d, cur := st.cur + 1 } (st.cur + 1) line false false
          simp only [loop, hTraw, Bool.false_eq_true, if_false,
            processLine_closed st.d hc raw true, if_true, hcl, if_neg hline, h2]
          obtain ⟨st3, h3, hd3⟩ := ih st2 none (by rw [hd2]; exact hc) hTrest
          exact ⟨st3, h3, by rw [hd3, hd2]⟩
    · by_cases hcm : isComment raw
      · simp only [loop, hTraw, Bool.false_eq_true, if_false,
          processLine_closed st.d hc raw false, hcm, if_true]
        exact ih { st with d := st.d, cur := st.cur + 1 } (some (sl, line, hasEmpty)) hc hTrest
      · by_cases hemp : isEmptyContinuationLine (trimComments raw)
        · simp only [loop, hTraw, Bool.false_eq_true, if_false,
            processLine_closed st.d hc raw false, hcm, hemp, if_true, ite_false]
          exact ih { st with d := st.d, cur := st.cur + 1 } (some (sl, line, true)) hc hTrest
        · rcases hcl : continuateLine (line ++ trimComments raw) st.d with ⟨line2, flag⟩
          rcases flag with _ | _
          · simp only [loop, hTraw, Bool.false_eq_true, if_false,
              processLine_closed st.d hc raw false, hcm, hemp, ite_false, hcl]
            exact ih { st with d := st.d, cur := st.cur + 1 } (some (sl, line2, hasEmpty)) hc hTrest
          · obtain ⟨st2, h2, hd2⟩ := finishStatement_total df hdf
              { st with d := st.d, cur := st.cur + 1 } sl line2 hasEmpty false
            simp only [loop, hTraw, Bool.false_eq_true, if_false,
              processLine_closed st.d hc raw false, hcm, hemp, ite_false, hcl, h2]
            obtain ⟨st3, h3, hd3⟩ := ih st2 none (by rw [hd2]; exact hc) hTrest
            exact ⟨st3, h3, by rw [hd3, hd2]⟩

/-- When no remaining physical line is over-long, a successful run of the
driver loop never reports a scanner error. -/
theorem loop_no_tooLong (df : String → Directive → Except GoError Node) :
    ∀ (rest : List String) (st : PState) (mode : Option (Nat × String × Bool))
      (st2 : PState) (f : Bool),
      (∀ l ∈ rest, tooLongLine l = false) →
      loop df st mode rest = .ok (st2, f) → f = false := by
  intro rest
  induction rest with
  | nil =>
    intro st mode st2 f _ hrun
    rcases mode with _ | ⟨sl, line, hasEmpty⟩
    · simp only [loop, Except.ok.injEq, Prod.mk.injEq] at hrun
      exact hrun.2.symm
    · simp only [loop, finishStatement] at hrun
      rcases hdf : df line (if hasEmpty then { st with warnings := st.warnings ++ [emptyContinuationWarning line] } else st).d with e | n <;>
        simp only [hdf] at hrun
      · exact absurd hrun (by simp)
      · simp only [Except.ok.injEq, Prod.mk.injEq] at hrun
        exact hrun.2.symm
  | cons raw rest ih =>
    intro st mode st2 f hT hrun
    have hTraw : tooLongLine raw = false := hT raw (List.mem_cons_self _ _)
    have hTrest : ∀ l ∈ rest, tooLongLine l = false :=
      fun l hl => hT l (List.mem_cons_of_mem _ hl)
    rcases mode with _ | ⟨sl, line, hasEmpty⟩
    · rw [loop, hTraw] at hrun
      simp only [Bool.false_eq_true, if_false] at hrun
      rcases hpl : processLine st.d raw true with e | ⟨bytesRead, d1⟩
      · simp only [hpl] at hrun
        exact absurd hrun (by simp)
      · simp only [hpl] at hrun
        rcases hcl : continuateLine bytesRead d1 with ⟨line, flag⟩
        rcases flag with _ | _ <;> simp only [hcl] at hrun
        · exact ih _ _ _ _ hTrest hrun
        · by_cases hline : line = ""
          · rw [if_pos hline] at hrun
            exact ih _ _ _ _ hTrest hrun
          · rw [if_neg hline] at hrun
            rcases hfs : finishStatement df { st with d := d1, cur := st.cur + 1 } (st.cur + 1) line false false
              with e2 | ⟨st3, f3⟩
            · simp only [hfs] at hrun
              exact absurd hrun (by simp)
            · simp only [hfs] at hrun
              exact ih _ _ _ _ hTrest hrun
    · rw [loop, hTraw] at hrun
      simp only [Bool.false_eq_true, if_false] at hrun
      rcases hpl : processLine st.d raw false with e | ⟨bytesRead, d1⟩
      · simp only [hpl] at hrun
        exact absurd hrun (by simp)
      · simp only [hpl] at hrun
        by_cases hcm : isComment raw
        · rw [if_pos hcm] at hrun
          exact ih _ _ _ _ hTrest hrun
        · rw [if_neg hcm] at hrun
          by_cases hemp : isEmptyContinuationLine bytesRead
          · rw [if_pos hemp] at hrun
            exact ih _ _ _ _ hTrest hrun
          · rw [if_neg hemp] at hrun
            rcases hcl : continuateLine (line ++ bytesRead) d1 with ⟨line2, flag⟩
            rcases flag with _ | _ <;> simp only [hcl] at hrun
            · exact ih _ _ _ _ hTrest hrun
            · rcases hfs : finishStatement df { st with d := d1, cur := st.cur + 1 } sl line2 hasEmpty false
                with e2 | ⟨st3, f3⟩
              · simp only [hfs] at hrun
                exact absurd hrun (by simp)
              · simp only [hfs] at hrun
                exact ih _ _ _ _ hTrest hrun

/-- `finishStatement` echoes its scanner flag on success. -/
theorem finishStatement_flag (df : String → Directive → Except GoError Node)
    (st : PState) (sl : Nat) (line : String) (hasEmpty tooLong : Bool)
    (st2 : PState) (f : Bool)
    (h : finishStatement df st sl line hasEmpty tooLong = .ok (st2, f)) : f = tooLong := by
  unfold finishStatement at h
  rcases hdf : df line (if hasEmpty then { st with warnings := st.warnings ++ [emptyContinuationWarning line] } else st).d with e | n <;>
    simp only [hdf] at h
  · exact absurd h (by simp)
  · simp only [Except.ok.injEq, Prod.mk.injEq] at h
    exact h.2.symm

/-- If some remaining physical line is over-long, the driver loop cannot
finish cleanly: it either propagates an error or stops on the scanner
failure. -/
theorem loop_tooLong_present (df : String → Directive → Except GoError Node) :
    ∀ (rest : List String) (st : PState) (mode : Option (Nat × String × Bool)),
      (∃ l ∈ rest, tooLongLine l = true) →
      (∃ e, loop df st mode rest = .error e) ∨
      (∃ st2, loop df st mode rest = .ok (st2, true)) := by
  intro rest
  induction rest with
  | nil =>
    rintro st mode ⟨l, hl, -⟩
    exact absurd hl (List.not_mem_nil l)
  | cons raw rest ih =>
    rintro st mode hex
    by_cases hTraw : tooLongLine raw
    · rcases mode with _ | ⟨sl, line, hasEmpty⟩
      · rw [loop, if_pos hTraw]
        exact Or.inr ⟨st, rfl⟩
      · rw [loop, if_pos hTraw]
        rcases hfs : finishStatement df st sl line hasEmpty true with e | ⟨st2, f⟩
        · exact Or.inl ⟨e, rfl⟩
        · have := finishStatement_flag df st sl line hasEmpty true st2 f hfs
          subst this
          exact Or.inr ⟨st2, rfl⟩
    · have hex2 : ∃ l ∈ rest, tooLongLine l = true := by
        rcases hex with ⟨l, hl, htl⟩
        rcases List.mem_cons.mp hl with rfl | hl2
        · exact absurd htl hTraw
        · exact ⟨l, hl2, htl⟩
      have hTraw2 : tooLongLine raw = false := by
        rcases Bool.eq_false_or_eq_true (tooLongLine raw) with h | h
        · exact absurd h hTraw
        · exact h
      rcases mode with _ | ⟨sl, line, hasEmpty⟩
      · rw [loop, hTraw2]
        simp only [Bool.false_eq_true, if_false]
        rcases hpl : processLine st.d raw true with e | ⟨bytesRead, d1⟩ <;>
          simp only [hpl]
        · exact Or.inl ⟨e, rfl⟩
        · rcases hcl : continuateLine bytesRead d1 with ⟨line, flag⟩
          rcases flag with _ | _ <;> simp only [hcl]
          · exact ih _ _ hex2
          · by_cases hline : line = ""
            · rw [if_pos hline]
              exact ih _ _ hex2
            · rw [if_neg hline]
              rcases hfs : finishStatement df { st with d := d1, cur := st.cur + 1 } (st.cur + 1) line false false
                with e2 | ⟨st3, f3⟩ <;> simp only [hfs]
              · exact Or.inl ⟨e2, rfl⟩
              · exact ih _ _ hex2
      · rw [loop, hTraw2]
        simp only [Bool.false_eq_true, if_false]
        rcases hpl : processLine st.d raw false with e | ⟨bytesRead, d1⟩ <;>
          simp only [hpl]
        · exact Or.inl ⟨e, rfl⟩
        · by_cases hcm : isComment raw
          · rw [if_pos hcm]
            exact ih _ _ hex2
          · rw [if_neg hcm]
            by_cases hemp : isEmptyContinuationLine bytesRead
            · rw [if_pos hemp]
              exact ih _ _ hex2
            · rw [if_neg hemp]
              rcases hcl : continuateLine (line ++ bytesRead) d1 with ⟨line2, flag⟩
              rcases flag with _ | _ <;> simp only [hcl]
              · exact ih _ _ hex2
              · rcases hfs : finishStatement df { st with d := d1, cur := st.cur + 1 } sl line2 hasEmpty false
                  with e2 | ⟨st3, f3⟩ <;> simp only [hfs]
                · exact Or.inl ⟨e2, rfl⟩
                · exact ih _ _ hex2

/-! ### One-step unfolding lemmas for the driver loop -/

theorem loop_none_tooLong (df : String → Directive → Except GoError Node)
    (st : PState) (raw : String) (rest : List String)
    (hT : tooLongLine raw = true) :
    loop df st none (raw :: rest) = .ok (st, true) := by
  rw [loop, hT]
  simp

theorem loop_none_error (df : String → Directive → Except GoError Node)
    (st : PState) (raw : String) (rest : List String) (e : GoError)
    (hT : tooLongLine raw = false)
    (hpl : processLine st.d raw true = .error e) :
    loop df st none (raw :: rest) = .error e := by
  rw [loop, hT]
  simp only [Bool.false_eq_true, if_false, hpl]

theorem loop_none_blank (df : String → Directive → Except GoError Node)
    (st : PState) (raw : String) (rest : List String) (bytesRead : String) (d1 : Directive)
    (hT : tooLongLine raw = false)
    (hpl : processLine st.d raw true = .ok (bytesRead, d1))
    (hcl : continuateLine bytesRead d1 = ("", true)) :
    loop df st none (raw :: rest) = loop df { st with d := d1, cur := st.cur + 1 } none rest := by
  rw [loop, hT]
  simp only [Bool.false_eq_true, if_false, hpl, hcl, if_pos rfl]
  simp

theorem loop_none_complete (df : String → Directive → Except GoError Node)
    (st : PState) (raw : String) (rest : List String) (bytesRead : String) (d1 : Directive)
    (line : String)
    (hT : tooLongLine raw = false)
    (hpl : processLine st.d raw true = .ok (bytesRead, d1))
    (hcl : continuateLine bytesRead d1 = (line, true))
    (hline : ¬ line = "") :
    loop df st none (raw :: rest) =
      match finishStatement df { st with d := d1, cur := st.cur + 1 } (st.cur + 1) line false false with
      | .error e => .error e
      | .ok (st2, _) => loop df st2 none rest := by
  rw [loop, hT]
  simp only [Bool.false_eq_true, if_false, hpl, hcl, if_neg hline]

theorem loop_none_incomplete (df : String → Directive → Except GoError Node)
    (st : PState) (raw : String) (rest : List String) (bytesRead : String) (d1 : Directive)
    (line : String)
    (hT : tooLongLine raw = false)
    (hpl : processLine st.d raw true = .ok (bytesRead, d1))
    (hcl : continuateLine bytesRead d1 = (line, false)) :
    loop df st none (raw :: rest) =
      loop df { st with d := d1, cur := st.cur + 1 } (some (st.cur + 1, line, false)) rest := by
  rw [loop, hT]
  simp only [Bool.false_eq_true, if_false, hpl, hcl]

theorem loop_some_tooLong (df : String → Directive → Except GoError Node)
    (st : PState) (raw : String) (rest : List String) (sl : Nat) (line : String)
    (hasEmpty : Bool)
    (hT : tooLongLine raw = true) :
    loop df st (some (sl, line, hasEmpty)) (raw :: rest) =
      finishStatement df st sl line hasEmpty true := by
  rw [loop, hT]
  simp

theorem loop_some_error (df : String → Directive → Except GoError Node)
    (st : PState) (raw : String) (rest : List String) (sl : Nat) (line : String)
    (hasEmpty : Bool) (e : GoError)
    (hT : tooLongLine raw = false)
    (hpl : processLine st.d raw false = .error e) :
    loop df st (some (sl, line, hasEmpty)) (raw :: rest) = .error e := by
  rw [loop, hT]
  simp only [Bool.false_eq_true, if_false, hpl]

theorem loop_some_comment (df : String → Directive → Except GoError Node)
    (st : PState) (raw : String) (rest : List String) (sl : Nat) (line : String)
    (hasEmpty : Bool) (bytesRead : String) (d1 : Directive)
    (hT : tooLongLine raw = false)
    (hpl : processLine st.d raw false = .ok (bytesRead, d1))
    (hcm : isComment raw = true) :
    loop df st (some (sl, line, hasEmpty)) (raw :: rest) =
      loop df { st with d := d1, cur := st.cur + 1 } (some (sl, line, hasEmpty)) rest := by
  rw [loop, hT]
  simp only [Bool.false_eq_true, if_false, hpl, hcm, if_pos rfl]
  simp

theorem loop_some_empty (df : String → Directive → Except GoError Node)
    (st : PState) (raw : String) (rest : List String) (sl : Nat) (line : String)
    (hasEmpty : Bool) (bytesRead : String) (d1 : Directive)
    (hT : tooLongLine raw = false)
    (hpl : processLine st.d raw false = .ok (bytesRead, d1))
    (hcm : isComment raw = false)
    (hemp : isEmptyContinuationLine bytesRead = true) :
    loop df st (some (sl, line, hasEmpty)) (raw :: rest) =
      loop df { st with d := d1, cur := st.cur + 1 } (some (sl, line, true)) rest := by
  rw [loop, hT]
  simp only [Bool.false_eq_true, if_false, hpl, hcm, hemp, if_pos rfl]
  simp

theorem loop_some_continue (df : String → Directive → Except GoError Node)
    (st : PState) (raw : String) (rest : List String) (sl : Nat) (line : String)
    (hasEmpty : Bool) (bytesRead : String) (d1 : Directive) (line2 : String)
    (hT : tooLongLine raw = false)
    (hpl : processLine st.d raw false = .ok (bytesRead, d1))
    (hcm : isComment raw = false)
    (hemp : isEmptyContinuationLine bytesRead = false)
    (hcl : continuateLine (line ++ bytesRead) d1 = (line2, false)) :
    loop df st (some (sl, line, hasEmpty)) (raw :: rest) =
      loop df { st with d := d1, cur := st.cur + 1 } (some (sl, line2, hasEmpty)) rest := by
  rw [loop, hT]
  simp only [Bool.false_eq_true, if_false, hpl, hcm, hemp, hcl]

theorem loop_some_complete (df : String → Directive → Except GoError Node)
    (st : PState) (raw : String) (rest : List String) (sl : Nat) (line : String)
    (hasEmpty : Bool) (bytesRead : String) (d1 : Directive) (line2 : String)
    (hT : tooLongLine raw = false)
    (hpl : processLine st.d raw false = .ok (bytesRead, d1))
    (hcm : isComment raw = false)
    (hemp : isEmptyContinuationLine bytesRead = false)
    (hcl : continuateLine (line ++ bytesRead) d1 = (line2, true)) :
    loop df st (some (sl, line, hasEmpty)) (raw :: rest) =
      match finishStatement df { st with d := d1, cur := st.cur + 1 } sl line2 hasEmpty false with
      | .error e => .error e
      | .ok (st2, _) => loop df st2 none rest := by
  rw [loop, hT]
  simp only [Bool.false_eq_true, if_false, hpl, hcm, hemp, hcl]

theorem finishStatement_ok (df : String → Directive → Except GoError Node)
    (st : PState) (sl : Nat) (line : String) (hasEmpty tooLong : Bool) (n : Node)
    (hdf : df line st.d = .ok n) :
    finishStatement df st sl line hasEmpty tooLong =
      .ok (addChild { st with
            warnings := if hasEmpty then st.warnings ++ [emptyContinuationWarning line]
              else st.warnings,
            trace := (if hasEmpty then { st with warnings := st.warnings ++ [emptyContinuationWarning line] } else st).trace
              ++ [(line, hasEmpty)] } n sl st.cur, tooLong) := by
  unfold finishStatement
  rcases hasEmpty with _ | _
  · simp only [Bool.false_eq_true, if_false, hdf]
  · have hdf2 : df line ({ st with
        warnings := st.warnings ++ [emptyContinuationWarning line] } : PState).d = .ok n := hdf
    simp [hdf2]

/-- Claim C1, as stated, is false at the text `RUN ["a`: a quote follows
the last `[`, so the claimed resolver reports the statement complete, but
`continuateLine` (via `lineJSONArrayContinuator`, whose `[^"]*` prefix can
match the empty string) reports it incomplete. -/
theorem continuateLine_quote_counterexample :
    continuateLine "RUN [\"a" NewDefaultDirective = ("RUN [\"a", false) ∧
    claimContinuate "RUN [\"a" NewDefaultDirective = ("RUN [\"a", true) := by
  decide

/-- Witness for `continuateLine_resolution`: the escape branch at
`"RUN a \ "` strips the escape and the trailing blank. -/
theorem continuateLine_resolution_witness :
    continuateLine "RUN a \\ " NewDefaultDirective = ("RUN a ", false) :=
  (continuateLine_resolution "RUN a \\ " NewDefaultDirective (Or.inl rfl)).1
    "RUN a ".data [' '] (by decide) (by decide)

/-! ## Scanner-failure behaviour of Parse (claims C5, C6) -/

/-- a physical line the default `bufio.Scanner` refuses (65536 characters). -/
def oversizedLine : String :=
  ⟨List.replicate 65536 'a'⟩

theorem oversizedLine_data : oversizedLine.data = List.replicate 65536 'a' := rfl

theorem oversizedLine_tooLong : tooLongLine oversizedLine = true := by
  unfold tooLongLine maxScanTokenSize
  rw [oversizedLine_data, List.length_replicate]
  decide

/-- a line whose first character is not the BOM is left unchanged. -/
theorem stripBOM_ne (s : String) (h : s.data.head? ≠ some '﻿') : stripBOM s = s := by
  unfold stripBOM
  split
  · next rest heq =>
    exact absurd (by rw [heq]; rfl) h
  · rfl

theorem oversizedLine_stripBOM : stripBOM oversizedLine = oversizedLine := by
  apply stripBOM_ne
  rw [oversizedLine_data, show (65536 : Nat) = 65535 + 1 from rfl, List.replicate_succ]
  decide

/-- Reading off `Parse` from a successful run of its loop. -/
theorem Parse_eq_of_loop (df : String → Directive → Except GoError Node)
    (lines : List String) (st : PState) (f : Bool)
    (h : loop df initState none (scannedLines lines) = .ok (st, f)) :
    Parse df lines =
      if st.rootStart < 0 then (none, some .noInstructions)
      else
        (some { AST := { value := "", original := "", startLine := st.rootStart,
                         endLine := st.rootEnd, children := st.children },
                escapeToken := st.d.escapeToken,
                warnings := if st.warnings.length > 0 then st.warnings ++ [deprecationWarning]
                  else st.warnings },
         if f then some (.lineTooLong (maxScanTokenSize - 1)) else none) := by
  unfold Parse
  rw [h]

/-- Reading off `Parse` from a failing run of its loop. -/
theorem Parse_eq_of_loop_error (df : String → Directive → Except GoError Node)
    (lines : List String) (e : GoError)
    (h : loop df initState none (scannedLines lines) = .error e) :
    Parse df lines = (none, some e) := by
  unfold Parse
  rw [h]

/-- Claim C6 (amended): an input containing an over-long physical line
always makes `Parse` return a non-nil error, but the error is the
`LineTooLong` one (naming the configured maximum, `MaxScanTokenSize-1`)
only when a tree was built, i.e. when at least one instruction was
completed before the over-long line; when nothing was parsed the
`file with no instructions` check masks the scanner error, and an earlier
directive or dispatch error is reported instead of `LineTooLong`. -/
theorem Parse_tooLong_behaviour (df : String → Directive → Except GoError Node)
    (lines : List String)
    (hex : ∃ l ∈ scannedLines lines, tooLongLine l = true) :
    (Parse df lines).2 ≠ none ∧
    ((Parse df lines).1 ≠ none →
      (Parse df lines).2 = some (.lineTooLong (maxScanTokenSize - 1))) := by
  rcases loop_tooLong_present df (scannedLines lines) initState none hex with ⟨e, he⟩ | ⟨st2, h2⟩
  · unfold Parse
    rw [he]
    exact ⟨by simp, by simp⟩
  · unfold Parse
    rw [h2]
    by_cases hrs : st2.rootStart < 0
    · simp only [if_pos hrs]
      exact ⟨by simp, by simp⟩
    · simp only [if_neg hrs]
      exact ⟨by simp, fun _ => by simp⟩

/-- Witness for `Parse_tooLong_behaviour` at a single over-long line. -/
theorem Parse_tooLong_behaviour_witness :
    (Parse specDispatch [oversizedLine]).2 ≠ none ∧
    ((Parse specDispatch [oversizedLine]).1 ≠ none →
      (Parse specDispatch [oversizedLine]).2 = some (.lineTooLong (maxScanTokenSize - 1))) :=
  Parse_tooLong_behaviour specDispatch [oversizedLine]
    ⟨oversizedLine, by rw [scannedLines, oversizedLine_stripBOM]; exact List.mem_cons_self _ _,
      oversizedLine_tooLong⟩

/-- Claim C6, as stated, is false when the over-long line is the first
line: nothing has been parsed, so `Parse` reports `NoInstructionsFound`,
not `LineTooLong`. -/
theorem Parse_tooLong_first_counterexample :
    Parse specDispatch [oversizedLine] = (none, some .noInstructions) := by
  have hscan : scannedLines [oversizedLine] = [oversizedLine] := by
    rw [scannedLines, oversizedLine_stripBOM]
  have hloop : loop specDispatch initState none (scannedLines [oversizedLine]) =
      .ok (initState, true) := by
    rw [hscan, loop, oversizedLine_tooLong]
    simp
  rw [Parse_eq_of_loop specDispatch [oversizedLine] initState true hloop]
  simp [initState]

/-- the default directive with its window closed (the state after any
non-directive first line). -/
def dirClosed : Directive :=
  { escapeToken := '\\', processingComplete := true, escapeSeen := false }

/-- The parse state after the single instruction line `FROM a`. -/
def stateAfterFromA : PState :=
  { d := dirClosed,
    cur := 1, rootStart := 1, rootEnd := 1,
    children := [{ value := "FROM", original := "FROM a",
                   startLine := 1, endLine := 1, children := [] }],
    warnings := [], trace := [("FROM a", false)] }

/-- Claim C5, as stated, is false on `FROM a` followed by an over-long
line: `Parse` returns a partial tree (the `FROM` instruction) *and* the
non-nil `LineTooLong` error. -/
theorem Parse_partial_tree_counterexample :
    Parse specDispatch ["FROM a", oversizedLine] =
      (some { AST := { value := "", original := "", startLine := 1, endLine := 1,
                       children := [{ value := "FROM", original := "FROM a",
                                      startLine := 1, endLine := 1, children := [] }] },
              escapeToken := '\\', warnings := [] },
       some (.lineTooLong 65535)) := by
  have hscan : scannedLines ["FROM a", oversizedLine] = ["FROM a", oversizedLine] := rfl
  have e1 := loop_none_complete specDispatch initState "FROM a" [oversizedLine] "FROM a"
    dirClosed "FROM a" (by decide) rfl rfl (by decide)
  have e2 : finishStatement specDispatch
      { initState with d := dirClosed, cur := initState.cur + 1 }
      (initState.cur + 1) "FROM a" false false = .ok (stateAfterFromA, false) := rfl
  have e3 : loop specDispatch stateAfterFromA none [oversizedLine] = .ok (stateAfterFromA, true) :=
    loop_none_tooLong specDispatch stateAfterFromA oversizedLine [] oversizedLine_tooLong
  have hloop : loop specDispatch initState none (scannedLines ["FROM a", oversizedLine]) =
      .ok (stateAfterFromA, true) := by
    rw [hscan, e1]
    simp only [e2]
    exact e3
  rw [Parse_eq_of_loop specDispatch ["FROM a", oversizedLine] stateAfterFromA true hloop]
  simp [stateAfterFromA, dirClosed, maxScanTokenSize]

/-- Claim C5 (amended): for every error raised while a line is being
processed or dispatched, and for the no-instructions check, `Parse`
returns no tree; only the scanner failure (a line exceeding the buffer
limit) is paired with a partial tree, and then the error is exactly the
`LineTooLong` one. -/
theorem Parse_error_no_tree (df : String → Directive → Except GoError Node)
    (lines : List String) :
    ((∀ l ∈ scannedLines lines, tooLongLine l = false) →
      (Parse df lines).2 ≠ none → (Parse df lines).1 = none) ∧
    ((Parse df lines).1 ≠ none → (Parse df lines).2 ≠ none →
      (Parse df lines).2 = some (.lineTooLong (maxScanTokenSize - 1))) := by
  constructor
  · intro hT herr
    rcases hloop : loop df initState none (scannedLines lines) with e | ⟨st, f⟩
    · unfold Parse
      rw [hloop]
    · have hf : f = false := loop_no_tooLong df (scannedLines lines) initState none st f hT hloop
      subst hf
      unfold Parse at herr ⊢
      rw [hloop] at herr ⊢
      by_cases hrs : st.rootStart < 0
      · simp only [if_pos hrs]
      · simp only [if_neg hrs] at herr
        simp at herr
  · intro hres herr
    rcases hloop : loop df initState none (scannedLines lines) with e | ⟨st, f⟩
    · unfold Parse at hres
      rw [hloop] at hres
      simp at hres
    · unfold Parse at hres herr ⊢
      rw [hloop] at hres herr ⊢
      by_cases hrs : st.rootStart < 0
      · simp [if_pos hrs] at hres
      · simp only [if_neg hrs] at herr ⊢
        rcases f with _ | _
        · simp at herr
        · simp

/-- Witness for `Parse_error_no_tree`: the empty input errors with no
tree. -/
theorem Parse_error_no_tree_witness : (Parse specDispatch []).1 = none :=
  (Parse_error_no_tree specDispatch []).1 (by intro l hl; simp [scannedLines] at hl)
    (by decide)

/-! ### Directive-processing helper lemmas -/

theorem trimComments_of_comment (s : String) (h : s.data.head? = some '#') :
    trimComments s = "" := by
  unfold trimComments
  split
  · rfl
  · next hne =>
    rcases hd : s.data with _ | ⟨c, r⟩
    · rw [hd] at h
      exact absurd h (by simp)
    · rw [hd] at h
      simp only [List.head?_cons, Option.some.injEq] at h
      exact absurd (hd.trans (by rw [h])) (hne r)

theorem continuateLine_empty (d : Directive) : continuateLine "" d = ("", true) := rfl

/-- The directive after a first valid escape directive with character `c`
has been consumed. -/
def dirSeen (c : Char) : Directive :=
  { escapeToken := c, processingComplete := false, escapeSeen := true }

/-- A line that does not match the escape-directive pattern closes the
directive window (and closing is idempotent). -/
theorem possibleParserDirective_none_close (d : Directive) (line : String)
    (h : matchEscapeDirective line = none) :
    possibleParserDirective d line = .ok { d with processingComplete := true } := by
  unfold possibleParserDirective
  by_cases hc : d.processingComplete
  · rw [if_pos hc]
    rcases d with ⟨e, pc, seen⟩
    simp only at hc
    subst hc
    rfl
  · rw [if_neg hc]
    simp only [h]

/-- The first matching directive line, with a valid escape character,
records the token and marks the directive as seen. -/
theorem possibleParserDirective_first (d : Directive) (line : String) (c : Char)
    (hpc : d.processingComplete = false) (hseen : d.escapeSeen = false)
    (h : matchEscapeDirective line = some c) (hc : c = '`' ∨ c = '\\') :
    possibleParserDirective d line =
      .ok { escapeToken := c, processingComplete := d.processingComplete, escapeSeen := true } := by
  unfold possibleParserDirective
  rw [if_neg (by rw [hpc]; exact Bool.false_ne_true)]
  simp only [h, hseen, Bool.false_eq_true, if_false]
  unfold setEscapeToken
  rw [if_pos hc]

/-- A second matching directive line fails with the duplicate error. -/
theorem possibleParserDirective_dup (d : Directive) (line : String) (c : Char)
    (hpc : d.processingComplete = false) (hseen : d.escapeSeen = true)
    (h : matchEscapeDirective line = some c) :
    possibleParserDirective d line = .error .duplicateEscape := by
  unfold possibleParserDirective
  rw [if_neg (by rw [hpc]; exact Bool.false_ne_true)]
  simp only [h, hseen, if_true]

/-- Claim C2: once the directive scanner sees a line that does not match
the escape-directive pattern, directive scanning is closed permanently:
`possibleParserDirective` closes the window on a non-matching line, a
closed window makes it a no-op on every later line (so a later
`# escape=<char>` line is an ordinary comment), and when the very first
line of the input is non-matching, `Parse` (with the spec-modelled
pass-through dispatcher, within the scanner limit) either succeeds with
the default backslash escape token or fails only with the
no-instructions error. -/
theorem Parse_directive_window_closed :
    (∀ (d : Directive) (line : String), matchEscapeDirective line = none →
        possibleParserDirective d line = .ok { d with processingComplete := true }) ∧
    (∀ (d : Directive) (line : String), d.processingComplete = true →
        possibleParserDirective d line = .ok d) ∧
    (∀ (l0 : String) (rest : List String),
      matchEscapeDirective (trimWhitespace (stripBOM l0)) = none →
      (∀ l ∈ scannedLines (l0 :: rest), tooLongLine l = false) →
      ((Parse specDispatch (l0 :: rest)).2 = none ∧
        ∃ r, (Parse specDispatch (l0 :: rest)).1 = some r ∧ r.escapeToken = '\\') ∨
      ((Parse specDispatch (l0 :: rest)).1 = none ∧
        (Parse specDispatch (l0 :: rest)).2 = some .noInstructions)) := by
  refine ⟨possibleParserDirective_none_close, fun d line h => possibleParserDirective_closed d h line, ?_⟩
  intro l0 rest h0 hT
  have hscan : scannedLines (l0 :: rest) = stripBOM l0 :: rest := rfl
  rw [hscan] at hT
  have hT0 : tooLongLine (stripBOM l0) = false := hT _ (List.mem_cons_self _ _)
  have hTrest : ∀ l ∈ rest, tooLongLine l = false :=
    fun l hl => hT l (List.mem_cons_of_mem _ hl)
  have hpd : possibleParserDirective initState.d (trimWhitespace (stripBOM l0)) =
      .ok dirClosed := possibleParserDirective_none_close _ _ h0
  have hpl : processLine initState.d (stripBOM l0) true =
      .ok (trimComments (trimWhitespace (stripBOM l0)), dirClosed) := by
    unfold processLine
    simp only [if_true, hpd]
  have hclosed : dirClosed.processingComplete = true := rfl
  have main : ∃ st2, loop specDispatch initState none (stripBOM l0 :: rest) = .ok (st2, false) ∧
      st2.d = dirClosed := by
    rcases hcl : continuateLine (trimComments (trimWhitespace (stripBOM l0))) dirClosed
      with ⟨line, flag⟩
    rcases flag with _ | _
    · rw [loop_none_incomplete specDispatch initState (stripBOM l0) rest _ dirClosed line hT0 hpl hcl]
      exact loop_closed specDispatch specDispatch_total rest _ _ hclosed hTrest
    · by_cases hline : line = ""
      · subst hline
        rw [loop_none_blank specDispatch initState (stripBOM l0) rest _ dirClosed hT0 hpl hcl]
        exact loop_closed specDispatch specDispatch_total rest _ _ hclosed hTrest
      · rw [loop_none_complete specDispatch initState (stripBOM l0) rest _ dirClosed line hT0 hpl hcl hline]
        obtain ⟨stF, hF, hFd⟩ := finishStatement_total specDispatch specDispatch_total
          { initState with d := dirClosed, cur := initState.cur + 1 } (initState.cur + 1) line false false
        simp only [hF]
        obtain ⟨st2, h2, hd2⟩ := loop_closed specDispatch specDispatch_total rest stF none
          (by rw [hFd]; exact hclosed) hTrest
        exact ⟨st2, h2, by rw [hd2, hFd]⟩
  obtain ⟨st2, hrun, hd2⟩ := main
  have hrun' : loop specDispatch initState none (scannedLines (l0 :: rest)) = .ok (st2, false) := by
    rw [hscan]
    exact hrun
  rw [Parse_eq_of_loop specDispatch (l0 :: rest) st2 false hrun']
  by_cases hrs : st2.rootStart < 0
  · rw [if_pos hrs]
    exact Or.inr ⟨rfl, rfl⟩
  · rw [if_neg hrs]
    refine Or.inl ⟨rfl, ⟨_, rfl, ?_⟩⟩
    rw [hd2]
    rfl

/-- Witness for `Parse_directive_window_closed`: an ordinary comment on
line 1 closes the window, so the `# escape=`-backtick line after it is an
ordinary comment and the file parses with the default backslash. -/
theorem Parse_directive_window_closed_witness :
    ((Parse specDispatch ["# comment", "# escape=`", "RUN a"]).2 = none ∧
      ∃ r, (Parse specDispatch ["# comment", "# escape=`", "RUN a"]).1 = some r ∧
        r.escapeToken = '\\') ∨
    ((Parse specDispatch ["# comment", "# escape=`", "RUN a"]).1 = none ∧
      (Parse specDispatch ["# comment", "# escape=`", "RUN a"]).2 = some .noInstructions) :=
  Parse_directive_window_closed.2.2 "# comment" ["# escape=`", "RUN a"]
    (by decide) (by decide)

/-- Claim C3 (amended): when the first two physical lines both match the
escape-directive pattern and the first one carries a valid escape
character, `Parse` fails with the duplicate-escape-directive error and
returns no tree, whatever dispatcher and remaining lines follow.  (When
the first matching line carries an invalid character, `Parse` fails with
the invalid-escape error instead — see the counterexample.) -/
theorem Parse_duplicate_directive (df : String → Directive → Except GoError Node)
    (l0 l1 : String) (rest : List String) (c c' : Char)
    (h0 : matchEscapeDirective (trimWhitespace (stripBOM l0)) = some c)
    (h0h : (trimWhitespace (stripBOM l0)).data.head? = some '#')
    (hc : c = '`' ∨ c = '\\')
    (h1 : matchEscapeDirective (trimWhitespace l1) = some c')
    (hT0 : tooLongLine (stripBOM l0) = false)
    (hT1 : tooLongLine l1 = false) :
    Parse df (l0 :: l1 :: rest) = (none, some .duplicateEscape) := by
  have hscan : scannedLines (l0 :: l1 :: rest) = stripBOM l0 :: l1 :: rest := rfl
  have hpd0 : possibleParserDirective initState.d (trimWhitespace (stripBOM l0)) =
      .ok (dirSeen c) :=
    possibleParserDirective_first _ _ c rfl rfl h0 hc
  have hpl0 : processLine initState.d (stripBOM l0) true =
      .ok ("", dirSeen c) := by
    unfold processLine
    simp only [if_true, hpd0, trimComments_of_comment _ h0h]
  have e0 := loop_none_blank df initState (stripBOM l0) (l1 :: rest) ""
    (dirSeen c) hT0 hpl0 (continuateLine_empty _)
  have hpd1 : possibleParserDirective
      ({ initState with d := dirSeen c, cur := initState.cur + 1 } : PState).d (trimWhitespace l1) =
      .error .duplicateEscape :=
    possibleParserDirective_dup _ _ c' rfl rfl h1
  have hpl1 : processLine
      ({ initState with d := dirSeen c, cur := initState.cur + 1 } : PState).d l1 true =
      .error .duplicateEscape := by
    unfold processLine
    simp only [if_true, hpd1]
  have e1 := loop_none_error df
    { initState with d := dirSeen c, cur := initState.cur + 1 } l1 rest .duplicateEscape hT1 hpl1
  have hrun : loop df initState none (scannedLines (l0 :: l1 :: rest)) =
      .error .duplicateEscape := by
    rw [hscan, e0, e1]
  exact Parse_eq_of_loop_error df (l0 :: l1 :: rest) .duplicateEscape hrun

/-- Witness for `Parse_duplicate_directive`. -/
theorem Parse_duplicate_directive_witness :
    Parse specDispatch ["# escape=`", "# escape=\\", "FROM x"] =
      (none, some .duplicateEscape) :=
  Parse_duplicate_directive specDispatch "# escape=`" "# escape=\\" ["FROM x"] '`' '\\'
    (by decide) (by decide) (Or.inl rfl) (by decide) (by decide) (by decide)

/-- Claim C3, as stated, is false when the first matching directive line
carries an invalid escape character: both lines of the directive window
match the pattern, yet `Parse` fails with the invalid-escape error, not
the duplicate one. -/
theorem Parse_duplicate_directive_counterexample :
    Parse specDispatch ["# escape=a", "# escape=\\", "FROM x"] =
      (none, some (.invalidEscape 'a')) := rfl

/-! ## Comments-only inputs (claim C7) -/

/-- a physical line that is a pure comment or blank. -/
def blankOrComment (l : String) : Bool :=
  isComment l || isEmptyContinuationLine l

/-- On a blank or comment line, the normalized content handed to the
continuation logic is empty. -/
theorem head_hash_of_isComment (l : String) (h : isComment l = true) :
    (trimWhitespace l).data.head? = some '#' := by
  unfold isComment at h
  revert h
  split
  · next heq =>
    intro _
    rw [heq]
    rfl
  · intro h
    exact absurd h Bool.false_ne_true

theorem trimComments_trim_of_blankOrComment (l : String) (h : blankOrComment l = true) :
    trimComments (trimWhitespace l) = "" := by
  unfold blankOrComment at h
  rcases Bool.or_eq_true_iff.mp h with hc | he
  · exact trimComments_of_comment _ (head_hash_of_isComment l hc)
  · unfold isEmptyContinuationLine at he
    have hnil : (trimWhitespace l).data = [] := List.isEmpty_iff.mp he
    have h2 : trimWhitespace l = "" := String.ext hnil
    rw [h2]
    rfl

/-- The sequence of `possibleParserDirective` calls the parser makes while
all lines start fresh statements (each line left-trimmed). -/
def directiveFold (d : Directive) : List String → Except GoError Directive
  | [] => .ok d
  | l :: ls =>
    match possibleParserDirective d (trimWhitespace l) with
    | .error e => .error e
    | .ok d1 => directiveFold d1 ls

/-- A run of blank/comment lines produces no child: only the line counter
and the directive state advance. -/
theorem loop_blank_comment (df : String → Directive → Except GoError Node) :
    ∀ (rest : List String) (st : PState) (d' : Directive),
      (∀ l ∈ rest, blankOrComment l = true) →
      (∀ l ∈ rest, tooLongLine l = false) →
      directiveFold st.d rest = .ok d' →
      ∃ st2, loop df st none rest = .ok (st2, false) ∧ st2.rootStart = st.rootStart := by
  intro rest
  induction rest with
  | nil =>
    intro st d' _ _ _
    exact ⟨st, rfl, rfl⟩
  | cons raw rest ih =>
    intro st d' hb hT hd
    have hbr : blankOrComment raw = true := hb raw (List.mem_cons_self _ _)
    have hTraw : tooLongLine raw = false := hT raw (List.mem_cons_self _ _)
    unfold directiveFold at hd
    rcases hpd : possibleParserDirective st.d (trimWhitespace raw) with e | d1 <;>
      rw [hpd] at hd
    · exact absurd hd (by simp)
    · have hpl : processLine st.d raw true = .ok ("", d1) := by
        unfold processLine
        simp only [if_true, hpd, trimComments_trim_of_blankOrComment raw hbr]
      rw [loop_none_blank df st raw rest "" d1 hTraw hpl (continuateLine_empty _)]
      obtain ⟨st2, h2, hroot⟩ := ih { st with d := d1, cur := st.cur + 1 } d'
        (fun l hl => hb l (List.mem_cons_of_mem _ hl))
        (fun l hl => hT l (List.mem_cons_of_mem _ hl)) hd
      exact ⟨st2, h2, hroot⟩

/-- Claim C7 (amended): an input all of whose (BOM-stripped) physical
lines are comments or blanks — which yields zero top-level instructions —
makes `Parse` fail with the `NoInstructionsFound` error and return no
tree, provided the directive scan over those lines raises no error (at
most one escape directive, with a valid character); this covers the empty
input.  (A comments-only input can instead fail with a directive error —
see the counterexample.) -/
theorem Parse_no_instructions (df : String → Directive → Except GoError Node)
    (lines : List String)
    (hb : ∀ l ∈ scannedLines lines, blankOrComment l = true)
    (hT : ∀ l ∈ scannedLines lines, tooLongLine l = false)
    (d' : Directive)
    (hd : directiveFold NewDefaultDirective (scannedLines lines) = .ok d') :
    Parse df lines = (none, some .noInstructions) := by
  obtain ⟨st2, hrun, hroot⟩ := loop_blank_comment df (scannedLines lines) initState d' hb hT hd
  rw [Parse_eq_of_loop df lines st2 false hrun]
  rw [if_pos]
  rw [hroot]
  decide

/-- Witness for `Parse_no_instructions`: comments and blanks only. -/
theorem Parse_no_instructions_witness :
    Parse specDispatch ["# c", "", "   "] = (none, some .noInstructions) :=
  Parse_no_instructions specDispatch ["# c", "", "   "] (by decide) (by decide)
    dirClosed rfl

/-- Claim C7, as stated, is false on an input consisting solely of two
copies of a valid escape directive: it yields zero top-level instructions
(each line is a directive/comment), yet `Parse` fails with the
duplicate-directive error instead of `NoInstructionsFound`. -/
theorem Parse_no_instructions_counterexample :
    blankOrComment "# escape=\\" = true ∧
    Parse specDispatch ["# escape=\\", "# escape=\\"] = (none, some .duplicateEscape) :=
  ⟨by decide, rfl⟩

/-! ## Comment stripping (claim C4) -/

/-- Claim C4 (amended): the Line Normalizer strips whole-line comments
only.  A physical line whose first non-whitespace character is `#`
normalizes to empty content, and at the start of a statement such a line
is skipped outright: no node, no warning, no contribution to any logical
line — only the line counter and the directive state advance.  (A
`#`-comment that follows instruction content on the same line is *not*
stripped — see the counterexample.) -/
theorem comment_lines_contribute_nothing :
    (∀ s : String, isComment s = true → trimComments (trimWhitespace s) = "") ∧
    (∀ (df : String → Directive → Except GoError Node) (st : PState)
       (raw : String) (rest : List String) (d1 : Directive),
      isComment raw = true →
      tooLongLine raw = false →
      possibleParserDirective st.d (trimWhitespace raw) = .ok d1 →
      loop df st none (raw :: rest) =
        loop df { st with d := d1, cur := st.cur + 1 } none rest) := by
  constructor
  · intro s hs
    exact trimComments_of_comment _ (head_hash_of_isComment s hs)
  · intro df st raw rest d1 hcm hT hpd
    have hpl : processLine st.d raw true = .ok ("", d1) := by
      unfold processLine
      simp only [if_true, hpd, trimComments_of_comment _ (head_hash_of_isComment raw hcm)]
    exact loop_none_blank df st raw rest "" d1 hT hpl (continuateLine_empty _)

/-- Witness for `comment_lines_contribute_nothing`: an indented pure
comment line is skipped. -/
theorem comment_lines_contribute_nothing_witness :
    loop specDispatch initState none ["  # note"] =
      loop specDispatch { initState with d := dirClosed, cur := initState.cur + 1 } none [] :=
  comment_lines_contribute_nothing.2 specDispatch initState "  # note" [] dirClosed
    (by decide) (by decide) rfl

/-- Claim C4, as stated, is false on `RUN echo hi # comment`: the
trailing comment survives normalization (`tokenComment` is anchored at
the start of the line), so the logical line handed to the dispatcher —
recorded in the node's `Original` field — still contains `# comment`. -/
theorem Parse_trailing_comment_counterexample :
    Parse specDispatch ["RUN echo hi # comment"] =
      (some { AST := { value := "", original := "", startLine := 1, endLine := 1,
                       children := [{ value := "RUN", original := "RUN echo hi # comment",
                                      startLine := 1, endLine := 1, children := [] }] },
              escapeToken := '\\', warnings := [] },
       none) := rfl

/-! ## Line-span invariants of the tree (claim C8) -/

/-- Span invariant over the components of the root under construction:
children carry 1-based, ordered, `cur`-bounded spans with `start ≤ end`;
the root sentinel is `-1` exactly while childless; otherwise the root span
bounds every child's span and both bounds are attained by some child. -/
def SpanInvC (children : List Node) (rootStart rootEnd : Int) (cur : Nat) : Prop :=
  (∀ c ∈ children,
    1 ≤ c.startLine ∧ c.startLine ≤ c.endLine ∧ c.endLine ≤ (cur : Int) ∧ c.children = []) ∧
  (children = [] → rootStart = -1) ∧
  (children ≠ [] →
    (∀ c ∈ children, rootStart ≤ c.startLine ∧ c.endLine ≤ rootEnd) ∧
    (∃ c ∈ children, c.startLine = rootStart) ∧
    (∃ c ∈ children, c.endLine = rootEnd) ∧
    1 ≤ rootStart ∧ rootEnd ≤ (cur : Int))

def SpanInv (st : PState) : Prop :=
  SpanInvC st.children st.rootStart st.rootEnd st.cur

/-- What must hold of an open statement: its start line is 1-based, not in
the future, and past every already-recorded child. -/
def ModeInv (st : PState) : Option (Nat × String × Bool) → Prop
  | none => True
  | some (sl, _, _) => 1 ≤ sl ∧ sl ≤ st.cur ∧ ∀ c ∈ st.children, c.endLine < (sl : Int)

theorem spanInvC_bump (children : List Node) (rootStart rootEnd : Int) (cur : Nat)
    (h : SpanInvC children rootStart rootEnd cur) :
    SpanInvC children rootStart rootEnd (cur + 1) := by
  obtain ⟨h1, h2, h3⟩ := h
  refine ⟨?_, h2, ?_⟩
  · intro c hc
    obtain ⟨a, b, c2, d2⟩ := h1 c hc
    refine ⟨a, b, ?_, d2⟩
    push_cast
    omega
  · intro hne
    obtain ⟨a, b, c2, d2, e2⟩ := h3 hne
    refine ⟨a, b, c2, d2, ?_⟩
    push_cast
    omega

theorem spanInvC_addChild (children : List Node) (rootStart rootEnd : Int) (cur sl : Nat)
    (n : Node)
    (hinv : SpanInvC children rootStart rootEnd cur)
    (h1 : 1 ≤ sl) (h2 : sl ≤ cur)
    (h3 : ∀ c ∈ children, c.endLine < (sl : Int))
    (hn : n.children = []) :
    SpanInvC (children ++ [{ n with startLine := (sl : Int), endLine := (cur : Int) }])
      (if rootStart < 0 then (sl : Int) else rootStart) (cur : Int) cur := by
  obtain ⟨i1, i2, i3⟩ := hinv
  refine ⟨?_, ?_, ?_⟩
  · intro c hc
    rcases List.mem_append.mp hc with hold | hnew
    · obtain ⟨a, b, c2, d2⟩ := i1 c hold
      exact ⟨a, b, c2, d2⟩
    · rw [List.mem_singleton.mp hnew]
      refine ⟨by push_cast; omega, by push_cast; omega, le_refl _, hn⟩
  · intro hemp
    exact absurd hemp (by simp)
  · intro _
    rcases hcs : children with _ | ⟨c0, cs⟩
    · subst hcs
      have hrs : rootStart = -1 := i2 rfl
      rw [hrs]
      refine ⟨?_, ?_, ?_, ?_, ?_⟩
      · intro c hc
        simp only [List.nil_append, List.mem_singleton] at hc
        rw [hc]
        constructor
        · rw [if_pos (by norm_num : (-1 : Int) < 0)]
        · exact le_refl _
      · exact ⟨{ n with startLine := (sl : Int), endLine := (cur : Int) }, by simp,
          by rw [if_pos (by norm_num : (-1 : Int) < 0)]⟩
      · exact ⟨{ n with startLine := (sl : Int), endLine := (cur : Int) }, by simp, rfl⟩
      · rw [if_pos (by norm_num : (-1 : Int) < 0)]
        omega
      · omega
    · have hne : children ≠ [] := by rw [hcs]; exact List.cons_ne_nil c0 cs
      rw [← hcs]
      obtain ⟨j1, j2, j3, j4, j5⟩ := i3 hne
      obtain ⟨w1, hw1, hw1e⟩ := j2
      have hrsnn : ¬ rootStart < 0 := by
        have := j4
        omega
      rw [if_neg hrsnn]
      refine ⟨?_, ?_, ?_, j4, le_refl _⟩
      · intro c hc
        rcases List.mem_append.mp hc with hold | hnew
        · obtain ⟨a, b⟩ := j1 c hold
          refine ⟨a, ?_⟩
          calc c.endLine ≤ rootEnd := b
            _ ≤ (cur : Int) := j5
        · rw [List.mem_singleton.mp hnew]
          constructor
          · have hw1b := (j1 w1 hw1).1
            have hw1c := (i1 w1 hw1).2.1
            have hw1d := h3 w1 hw1
            simp only
            omega
          · exact le_refl _
      · exact ⟨w1, List.mem_append_left _ hw1, hw1e⟩
      · exact ⟨{ n with startLine := (sl : Int), endLine := (cur : Int) },
          List.mem_append_right _ (by simp), rfl⟩

theorem finishStatement_span (df : String → Directive → Except GoError Node)
    (hdf : ∀ l d n, df l d = .ok n → n.children = [])
    (st : PState) (sl : Nat) (line : String) (hasEmpty tooLong : Bool)
    (st2 : PState) (f : Bool)
    (h : finishStatement df st sl line hasEmpty tooLong = .ok (st2, f))
    (hinv : SpanInv st) (h1 : 1 ≤ sl) (h2 : sl ≤ st.cur)
    (h3 : ∀ c ∈ st.children, c.endLine < (sl : Int)) :
    SpanInv st2 ∧ st2.cur = st.cur := by
  rcases hasEmpty with _ | _
  · unfold finishStatement at h
    simp only [Bool.false_eq_true, if_false] at h
    rcases hdfl : df line st.d with e | n
    · simp only [hdfl] at h
      exact absurd h (by simp)
    · simp only [hdfl, Except.ok.injEq, Prod.mk.injEq] at h
      obtain ⟨hst2, -⟩ := h
      subst hst2
      exact ⟨spanInvC_addChild st.children st.rootStart st.rootEnd st.cur sl n hinv h1 h2 h3
        (hdf line st.d n hdfl), rfl⟩
  · unfold finishStatement at h
    simp only [if_true] at h
    rcases hdfl : df line st.d with e | n
    · simp only [hdfl] at h
      exact absurd h (by simp)
    · simp only [hdfl, Except.ok.injEq, Prod.mk.injEq] at h
      obtain ⟨hst2, -⟩ := h
      subst hst2
      exact ⟨spanInvC_addChild st.children st.rootStart st.rootEnd st.cur sl n hinv h1 h2 h3
        (hdf line st.d n hdfl), rfl⟩

theorem modeInv_none (st : PState) : ModeInv st none := trivial

/-- The driver loop preserves the span invariant. -/
theorem loop_span (df : String → Directive → Except GoError Node)
    (hdf : ∀ l d n, df l d = .ok n → n.children = []) :
    ∀ (rest : List String) (st : PState) (mode : Option (Nat × String × Bool))
      (st2 : PState) (f : Bool),
      SpanInv st → ModeInv st mode →
      loop df st mode rest = .ok (st2, f) → SpanInv st2 := by
  intro rest
  induction rest with
  | nil =>
    intro st mode st2 f hinv hmode hrun
    rcases mode with _ | ⟨sl, line, hasEmpty⟩
    · simp only [loop, Except.ok.injEq, Prod.mk.injEq] at hrun
      rw [← hrun.1]
      exact hinv
    · obtain ⟨m1, m2, m3⟩ := hmode
      simp only [loop] at hrun
      exact (finishStatement_span df hdf st sl line hasEmpty false st2 f hrun hinv m1 m2 m3).1
  | cons raw rest ih =>
    intro st mode st2 f hinv hmode hrun
    have hbump : SpanInv { st with d := st.d, cur := st.cur + 1 } :=
      spanInvC_bump st.children st.rootStart st.rootEnd st.cur hinv
    rcases mode with _ | ⟨sl, line, hasEmpty⟩
    · by_cases hT : tooLongLine raw
      · rw [loop_none_tooLong df st raw rest hT] at hrun
        simp only [Except.ok.injEq, Prod.mk.injEq] at hrun
        rw [← hrun.1]
        exact hinv
      · have hT2 : tooLongLine raw = false := by
          rcases Bool.eq_false_or_eq_true (tooLongLine raw) with h | h
          · exact absurd h hT
          · exact h
        rcases hpl : processLine st.d raw true with e | ⟨bytesRead, d1⟩
        · rw [loop_none_error df st raw rest e hT2 hpl] at hrun
          exact absurd hrun (by simp)
        · rcases hcl : continuateLine bytesRead d1 with ⟨line, flag⟩
          have hinv1 : SpanInv { st with d := d1, cur := st.cur + 1 } :=
            spanInvC_bump st.children st.rootStart st.rootEnd st.cur hinv
          rcases flag with _ | _
          · rw [loop_none_incomplete df st raw rest bytesRead d1 line hT2 hpl hcl] at hrun
            refine ih _ _ _ _ hinv1 ?_ hrun
            refine ⟨by omega, le_refl _, ?_⟩
            intro c hc
            have := (hinv.1 c hc).2.2.1
            push_cast
            omega
          · by_cases hline : line = ""
            · subst hline
              rw [loop_none_blank df st raw rest bytesRead d1 hT2 hpl hcl] at hrun
              exact ih _ none _ _ hinv1 (modeInv_none _) hrun
            · rw [loop_none_complete df st raw rest bytesRead d1 line hT2 hpl hcl hline] at hrun
              rcases hfs : finishStatement df { st with d := d1, cur := st.cur + 1 }
                  (st.cur + 1) line false false with e2 | ⟨st3, f3⟩
              · simp only [hfs] at hrun
                exact absurd hrun (by simp)
              · simp only [hfs] at hrun
                have hspan3 : SpanInv st3 := by
                  refine (finishStatement_span df hdf _ _ _ _ _ _ _ hfs hinv1
                    (by omega) (le_refl _) ?_).1
                  intro c hc
                  have := (hinv.1 c hc).2.2.1
                  push_cast
                  omega
                exact ih _ none _ _ hspan3 (modeInv_none _) hrun
    · obtain ⟨m1, m2, m3⟩ := hmode
      by_cases hT : tooLongLine raw
      · rw [loop_some_tooLong df st raw rest sl line hasEmpty hT] at hrun
        exact (finishStatement_span df hdf st sl line hasEmpty true st2 f hrun hinv m1 m2 m3).1
      · have hT2 : tooLongLine raw = false := by
          rcases Bool.eq_false_or_eq_true (tooLongLine raw) with h | h
          · exact absurd h hT
          · exact h
        rcases hpl : processLine st.d raw false with e | ⟨bytesRead, d1⟩
        · rw [loop_some_error df st raw rest sl line hasEmpty e hT2 hpl] at hrun
          exact absurd hrun (by simp)
        · have hinv1 : SpanInv { st with d := d1, cur := st.cur + 1 } :=
            spanInvC_bump st.children st.rootStart st.rootEnd st.cur hinv
          have hmode1 : ∀ b, ModeInv { st with d := d1, cur := st.cur + 1 } (some (sl, line, b)) :=
            fun b => ⟨m1, by show sl ≤ st.cur + 1; omega, m3⟩
          by_cases hcm : isComment raw
          · rw [loop_some_comment df st raw rest sl line hasEmpty bytesRead d1 hT2 hpl hcm] at hrun
            exact ih _ _ _ _ hinv1 (hmode1 hasEmpty) hrun
          · have hcm2 : isComment raw = false := by
              rcases Bool.eq_false_or_eq_true (isComment raw) with h | h
              · exact absurd h hcm
              · exact h
            by_cases hemp : isEmptyContinuationLine bytesRead
            · rw [loop_some_empty df st raw rest sl line hasEmpty bytesRead d1 hT2 hpl hcm2 hemp] at hrun
              exact ih _ _ _ _ hinv1 (hmode1 true) hrun
            · have hemp2 : isEmptyContinuationLine bytesRead = false := by
                rcases Bool.eq_false_or_eq_true (isEmptyContinuationLine bytesRead) with h | h
                · exact absurd h hemp
                · exact h
              rcases hcl : continuateLine (line ++ bytesRead) d1 with ⟨line2, flag⟩
              rcases flag with _ | _
              · rw [loop_some_continue df st raw rest sl line hasEmpty bytesRead d1 line2
                  hT2 hpl hcm2 hemp2 hcl] at hrun
                refine ih _ _ _ _ hinv1 ?_ hrun
                exact ⟨m1, by show sl ≤ st.cur + 1; omega, m3⟩
              · rw [loop_some_complete df st raw rest sl line hasEmpty bytesRead d1 line2
                  hT2 hpl hcm2 hemp2 hcl] at hrun
                rcases hfs : finishStatement df { st with d := d1, cur := st.cur + 1 }
                    sl line2 hasEmpty false with e2 | ⟨st3, f3⟩
                · simp only [hfs] at hrun
                  exact absurd hrun (by simp)
                · simp only [hfs] at hrun
                  have hspan3 : SpanInv st3 :=
                    (finishStatement_span df hdf _ _ _ _ _ _ _ hfs hinv1 m1
                      (by show sl ≤ st.cur + 1; omega) m3).1
                  exact ih _ none _ _ hspan3 (modeInv_none _) hrun

/-- Claim C8: in every tree returned by a successful `Parse` (with the
spec-modelled pass-through dispatcher, whose argument chains are empty
since `line_parsers.go` is not among the sources), every node satisfies
`start_line ≤ end_line`, and the root's `start_line`/`end_line` are the
minimum/maximum of its children's start/end lines (bounds that are
attained by some child). -/
theorem Parse_line_span_invariants (lines : List String) (r : Result)
    (h : (Parse specDispatch lines).1 = some r) :
    r.AST.startLine ≤ r.AST.endLine ∧
    (∀ c ∈ r.AST.children,
      c.startLine ≤ c.endLine ∧ r.AST.startLine ≤ c.startLine ∧
      c.endLine ≤ r.AST.endLine ∧ c.children = []) ∧
    (∃ c ∈ r.AST.children, c.startLine = r.AST.startLine) ∧
    (∃ c ∈ r.AST.children, c.endLine = r.AST.endLine) := by
  have hdf : ∀ l d n, specDispatch l d = .ok n → n.children = [] := by
    intro l d n hn
    simp only [specDispatch, Except.ok.injEq] at hn
    rw [← hn]
    rfl
  rcases hloop : loop specDispatch initState none (scannedLines lines) with e | ⟨st, f⟩
  · rw [Parse_eq_of_loop_error specDispatch lines e hloop] at h
    exact absurd h (by simp)
  · have hspan : SpanInv st :=
      loop_span specDispatch hdf (scannedLines lines) initState none st f
        ⟨by simp [initState], by intro _; rfl, by intro hne; exact absurd rfl hne⟩
        trivial hloop
    rw [Parse_eq_of_loop specDispatch lines st f hloop] at h
    by_cases hrs : st.rootStart < 0
    · rw [if_pos hrs] at h
      exact absurd h (by simp)
    · rw [if_neg hrs] at h
      simp only [Option.some.injEq] at h
      obtain ⟨i1, i2, i3⟩ := hspan
      have hne : st.children ≠ [] := by
        intro hemp
        exact hrs (by rw [i2 hemp]; norm_num)
      obtain ⟨j1, j2, j3, j4, j5⟩ := i3 hne
      have hAST : r.AST =
          { value := "", original := "", startLine := st.rootStart,
            endLine := st.rootEnd, children := st.children } := by rw [← h]
      rw [hAST]
      refine ⟨?_, ?_, j2, j3⟩
      · obtain ⟨w, hw, hwe⟩ := j2
        calc st.rootStart = w.startLine := hwe.symm
          _ ≤ w.endLine := (i1 w hw).2.1
          _ ≤ st.rootEnd := (j1 w hw).2
      · intro c hc
        exact ⟨(i1 c hc).2.1, (j1 c hc).1, (j1 c hc).2, (i1 c hc).2.2.2⟩

/-- Witness for `Parse_line_span_invariants` on a two-instruction file. -/
theorem Parse_line_span_invariants_witness :
    ({ AST := { value := "", original := "", startLine := 1, endLine := 2,
                children := [{ value := "FROM", original := "FROM a",
                               startLine := 1, endLine := 1, children := [] },
                             { value := "RUN", original := "RUN b",
                               startLine := 2, endLine := 2, children := [] }] },
       escapeToken := '\\', warnings := [] } : Result).AST.startLine ≤
      ({ AST := { value := "", original := "", startLine := 1, endLine := 2,
                  children := [{ value := "FROM", original := "FROM a",
                                 startLine := 1, endLine := 1, children := [] },
                               { value := "RUN", original := "RUN b",
                                 startLine := 2, endLine := 2, children := [] }] },
         escapeToken := '\\', warnings := [] } : Result).AST.endLine :=
  (Parse_line_span_invariants ["FROM a", "RUN b"] _ rfl).1

/-! ## Warning bookkeeping (claim C9) -/

theorem finishStatement_warnings (df : String → Directive → Except GoError Node)
    (st : PState) (sl : Nat) (line : String) (hasEmpty tooLong : Bool)
    (st2 : PState) (f : Bool)
    (h : finishStatement df st sl line hasEmpty tooLong = .ok (st2, f)) :
    st2.trace = st.trace ++ [(line, hasEmpty)] ∧
    st2.warnings = st.warnings ++
      (if hasEmpty then [emptyContinuationWarning line] else []) := by
  rcases hasEmpty with _ | _
  · unfold finishStatement at h
    simp only [Bool.false_eq_true, if_false] at h
    rcases hdfl : df line st.d with e | n
    · simp only [hdfl] at h
      exact absurd h (by simp)
    · simp only [hdfl, Except.ok.injEq, Prod.mk.injEq] at h
      obtain ⟨hst2, -⟩ := h
      subst hst2
      exact ⟨rfl, by simp [addChild]⟩
  · unfold finishStatement at h
    simp only [if_true] at h
    rcases hdfl : df line st.d with e | n
    · simp only [hdfl] at h
      exact absurd h (by simp)
    · simp only [hdfl, Except.ok.injEq, Prod.mk.injEq] at h
      obtain ⟨hst2, -⟩ := h
      subst hst2
      exact ⟨rfl, by simp [addChild]⟩

/-- The warnings slice produced by the driver loop is exactly one
per-statement warning for each traced statement that had an empty
continuation line, in statement order. -/
theorem loop_warnings (df : String → Directive → Except GoError Node) :
    ∀ (rest : List String) (st : PState) (mode : Option (Nat × String × Bool))
      (st2 : PState) (f : Bool),
      loop df st mode rest = .ok (st2, f) →
      ∃ Δ, st2.trace = st.trace ++ Δ ∧
        st2.warnings = st.warnings ++
          (Δ.filter (fun p => p.2)).map (fun p => emptyContinuationWarning p.1) := by
  intro rest
  induction rest with
  | nil =>
    intro st mode st2 f hrun
    rcases mode with _ | ⟨sl, line, hasEmpty⟩
    · simp only [loop, Except.ok.injEq, Prod.mk.injEq] at hrun
      rw [← hrun.1]
      exact ⟨[], by simp, by simp⟩
    · simp only [loop] at hrun
      obtain ⟨ht, hw⟩ := finishStatement_warnings df st sl line hasEmpty false st2 f hrun
      refine ⟨[(line, hasEmpty)], ht, ?_⟩
      rw [hw]
      rcases hasEmpty with _ | _ <;> simp
  | cons raw rest ih =>
    intro st mode st2 f hrun
    rcases mode with _ | ⟨sl, line, hasEmpty⟩
    · by_cases hT : tooLongLine raw
      · rw [loop_none_tooLong df st raw rest hT] at hrun
        simp only [Except.ok.injEq, Prod.mk.injEq] at hrun
        rw [← hrun.1]
        exact ⟨[], by simp, by simp⟩
      · have hT2 : tooLongLine raw = false := by
          rcases Bool.eq_false_or_eq_true (tooLongLine raw) with h | h
          · exact absurd h hT
          · exact h
        rcases hpl : processLine st.d raw true with e | ⟨bytesRead, d1⟩
        · rw [loop_none_error df st raw rest e hT2 hpl] at hrun
          exact absurd hrun (by simp)
        · rcases hcl : continuateLine bytesRead d1 with ⟨line, flag⟩
          rcases flag with _ | _
          · rw [loop_none_incomplete df st raw rest bytesRead d1 line hT2 hpl hcl] at hrun
            exact ih { st with d := d1, cur := st.cur + 1 } _ _ _ hrun
          · by_cases hline : line = ""
            · subst hline
              rw [loop_none_blank df st raw rest bytesRead d1 hT2 hpl hcl] at hrun
              exact ih { st with d := d1, cur := st.cur + 1 } _ _ _ hrun
            · rw [loop_none_complete df st raw rest bytesRead d1 line hT2 hpl hcl hline] at hrun
              rcases hfs : finishStatement df { st with d := d1, cur := st.cur + 1 }
                  (st.cur + 1) line false false with e2 | ⟨st3, f3⟩
              · simp only [hfs] at hrun
                exact absurd hrun (by simp)
              · simp only [hfs] at hrun
                obtain ⟨ht3, hw3⟩ := finishStatement_warnings df _ _ _ _ _ _ _ hfs
                obtain ⟨Δ, htΔ, hwΔ⟩ := ih _ _ _ _ hrun
                refine ⟨(line, false) :: Δ, ?_, ?_⟩
                · rw [htΔ, ht3]
                  simp
                · rw [hwΔ, hw3]
                  simp
    · by_cases hT : tooLongLine raw
      · rw [loop_some_tooLong df st raw rest sl line hasEmpty hT] at hrun
        obtain ⟨ht, hw⟩ := finishStatement_warnings df st sl line hasEmpty true st2 f hrun
        refine ⟨[(line, hasEmpty)], ht, ?_⟩
        rw [hw]
        rcases hasEmpty with _ | _ <;> simp
      · have hT2 : tooLongLine raw = false := by
          rcases Bool.eq_false_or_eq_true (tooLongLine raw) with h | h
          · exact absurd h hT
          · exact h
        rcases hpl : processLine st.d raw false with e | ⟨bytesRead, d1⟩
        · rw [loop_some_error df st raw rest sl line hasEmpty e hT2 hpl] at hrun
          exact absurd hrun (by simp)
        · by_cases hcm : isComment raw
          · rw [loop_some_comment df st raw rest sl line hasEmpty bytesRead d1 hT2 hpl hcm] at hrun
            exact ih { st with d := d1, cur := st.cur + 1 } _ _ _ hrun
          · have hcm2 : isComment raw = false := by
              rcases Bool.eq_false_or_eq_true (isComment raw) with h | h
              · exact absurd h hcm
              · exact h
            by_cases hemp : isEmptyContinuationLine bytesRead
            · rw [loop_some_empty df st raw rest sl line hasEmpty bytesRead d1 hT2 hpl hcm2 hemp] at hrun
              exact ih { st with d := d1, cur := st.cur + 1 } _ _ _ hrun
            · have hemp2 : isEmptyContinuationLine bytesRead = false := by
                rcases Bool.eq_false_or_eq_true (isEmptyContinuationLine bytesRead) with h | h
                · exact absurd h hemp
                · exact h
              rcases hcl : continuateLine (line ++ bytesRead) d1 with ⟨line2, flag⟩
              rcases flag with _ | _
              · rw [loop_some_continue df st raw rest sl line hasEmpty bytesRead d1 line2
                  hT2 hpl hcm2 hemp2 hcl] at hrun
                exact ih { st with d := d1, cur := st.cur + 1 } _ _ _ hrun
              · rw [loop_some_complete df st raw rest sl line hasEmpty bytesRead d1 line2
                  hT2 hpl hcm2 hemp2 hcl] at hrun
                rcases hfs : finishStatement df { st with d := d1, cur := st.cur + 1 }
                    sl line2 hasEmpty false with e2 | ⟨st3, f3⟩
                · simp only [hfs] at hrun
                  exact absurd hrun (by simp)
                · simp only [hfs] at hrun
                  obtain ⟨ht3, hw3⟩ := finishStatement_warnings df _ _ _ _ _ _ _ hfs
                  obtain ⟨Δ, htΔ, hwΔ⟩ := ih _ _ _ _ hrun
                  refine ⟨(line2, hasEmpty) :: Δ, ?_, ?_⟩
                  · rw [htΔ, ht3]
                    simp
                  · rw [hwΔ, hw3]
                    rcases hasEmpty with _ | _ <;> simp

/-- The ghost per-statement trace of a parse: one entry per dispatched
statement, carrying the assembled logical line and whether the statement
had at least one empty continuation line. -/
def parseTrace (df : String → Directive → Except GoError Node) (lines : List String) :
    List (String × Bool) :=
  match loop df initState none (scannedLines lines) with
  | .error _ => []
  | .ok (st, _) => st.trace

/-- Claim C9: for every successfully parsed input, the warnings list is
exactly one entry per statement that had at least one empty continuation
line (in statement order, no matter how many empty continuation lines the
statement had — the flag is per statement), followed by the trailing
deprecation notice exactly when at least one such warning exists;
otherwise it is empty. -/
theorem Parse_warnings_bookkeeping (df : String → Directive → Except GoError Node)
    (lines : List String) (r : Result) (h : (Parse df lines).1 = some r) :
    r.warnings =
      ((parseTrace df lines).filter (fun p => p.2)).map
        (fun p => emptyContinuationWarning p.1) ++
      (if (parseTrace df lines).filter (fun p => p.2) = [] then []
       else [deprecationWarning]) := by
  rcases hloop : loop df initState none (scannedLines lines) with e | ⟨st, f⟩
  · rw [Parse_eq_of_loop_error df lines e hloop] at h
    exact absurd h (by simp)
  · obtain ⟨Δ, htΔ, hwΔ⟩ := loop_warnings df (scannedLines lines) initState none st f hloop
    have htr : parseTrace df lines = Δ := by
      unfold parseTrace
      simp only [hloop]
      rw [htΔ]
      rfl
    have hwst : st.warnings = (Δ.filter (fun p => p.2)).map (fun p => emptyContinuationWarning p.1) := by
      rw [hwΔ]
      rfl
    rw [Parse_eq_of_loop df lines st f hloop] at h
    by_cases hrs : st.rootStart < 0
    · rw [if_pos hrs] at h
      exact absurd h (by simp)
    · rw [if_neg hrs] at h
      simp only [Option.some.injEq] at h
      have hw : r.warnings =
          if st.warnings.length > 0 then st.warnings ++ [deprecationWarning] else st.warnings := by
        rw [← h]
      rw [hw, htr, hwst]
      by_cases hΔ : Δ.filter (fun p => p.2) = []
      · rw [hΔ]
        simp
      · rw [if_neg hΔ, if_pos]
        have : (Δ.filter (fun p => p.2)).map (fun p => emptyContinuationWarning p.1) ≠ [] := by
          intro hmap
          exact hΔ (List.map_eq_nil_iff.mp hmap)
        have hlen : 0 < ((Δ.filter (fun p => p.2)).map (fun p => emptyContinuationWarning p.1)).length :=
          List.length_pos.mpr this
        omega

/-- Witness for `Parse_warnings_bookkeeping`: one statement with an empty
continuation line yields its per-statement warning plus the deprecation
notice. -/
theorem Parse_warnings_bookkeeping_witness :
    (Parse specDispatch ["RUN a \\", "", "b"]).1 =
      some { AST := { value := "", original := "", startLine := 1, endLine := 3,
                      children := [{ value := "RUN", original := "RUN a b",
                                     startLine := 1, endLine := 3, children := [] }] },
             escapeToken := '\\',
             warnings := [emptyContinuationWarning "RUN a b", deprecationWarning] } ∧
    ({ AST := { value := "", original := "", startLine := 1, endLine := 3,
                children := [{ value := "RUN", original := "RUN a b",
                               startLine := 1, endLine := 3, children := [] }] },
       escapeToken := '\\',
       warnings := [emptyContinuationWarning "RUN a b", deprecationWarning] } : Result).warnings =
      ((parseTrace specDispatch ["RUN a \\", "", "b"]).filter (fun p => p.2)).map
        (fun p => emptyContinuationWarning p.1) ++
      (if (parseTrace specDispatch ["RUN a \\", "", "b"]).filter (fun p => p.2) = [] then []
       else [deprecationWarning]) :=
  ⟨rfl, Parse_warnings_bookkeeping specDispatch ["RUN a \\", "", "b"] _ rfl⟩

/-! ## Input exhausted mid-continuation (claim C10) -/

/-- The continuation loop, run from accumulated line `line` with the
(frozen) directive `d`, stays incomplete through all of `rest`: every
remaining physical line is a comment, an empty continuation line, or a
continuation that still leaves the statement open. -/
def stillIncomplete (d : Directive) : String → List String → Bool
  | _, [] => true
  | line, raw :: rest =>
    if isComment raw then stillIncomplete d line rest
    else if isEmptyContinuationLine (trimComments raw) then stillIncomplete d line rest
    else
      match continuateLine (line ++ trimComments raw) d with
      | (line2, false) => stillIncomplete d line2 rest
      | (_, true) => false

/-- The logical line accumulated by the continuation loop over `rest`
(matching `stillIncomplete`). -/
def accumFinal (d : Directive) : String → List String → String
  | line, [] => line
  | line, raw :: rest =>
    if isComment raw then accumFinal d line rest
    else if isEmptyContinuationLine (trimComments raw) then accumFinal d line rest
    else accumFinal d (continuateLine (line ++ trimComments raw) d).1 rest

/-- When the input runs out while a statement is still open, the loop
reports no error: it consumes every remaining line, dispatches the
accumulated logical line, and records the statement with its end line
equal to the last physical line read. -/
theorem loop_eof_incomplete :
    ∀ (rest : List String) (st : PState) (sl : Nat) (line : String) (hasEmpty : Bool),
      st.d.processingComplete = true →
      (∀ l ∈ rest, tooLongLine l = false) →
      stillIncomplete st.d line rest = true →
      ∃ st2, loop specDispatch st (some (sl, line, hasEmpty)) rest = .ok (st2, false) ∧
        st2.cur = st.cur + rest.length ∧
        st2.rootStart = (if st.rootStart < 0 then (sl : Int) else st.rootStart) ∧
        st2.children = st.children ++
          [{ specNode (accumFinal st.d line rest) with
              startLine := (sl : Int), endLine := (st2.cur : Int) }] := by
  intro rest
  induction rest with
  | nil =>
    intro st sl line hasEmpty _ _ _
    simp only [loop]
    rw [finishStatement_ok specDispatch st sl line hasEmpty false (specNode line) rfl]
    exact ⟨_, rfl, rfl, rfl, rfl⟩
  | cons raw rest ih =>
    intro st sl line hasEmpty hpc hT hSI
    have hTraw : tooLongLine raw = false := hT raw (List.mem_cons_self _ _)
    have hTrest : ∀ l ∈ rest, tooLongLine l = false :=
      fun l hl => hT l (List.mem_cons_of_mem _ hl)
    have hpl : processLine st.d raw false = .ok (trimComments raw, st.d) := by
      have := processLine_closed st.d hpc raw false
      simpa using this
    by_cases hcm : isComment raw
    · rw [loop_some_comment specDispatch st raw rest sl line hasEmpty (trimComments raw) st.d
        hTraw hpl hcm]
      simp only [stillIncomplete, hcm, if_true] at hSI
      obtain ⟨st2, ha, hb, hc, hd⟩ := ih { st with d := st.d, cur := st.cur + 1 }
        sl line hasEmpty hpc hTrest hSI
      refine ⟨st2, ha, ?_, hc, ?_⟩
      · rw [hb]
        simp only [List.length_cons]
        omega
      · have hAF : accumFinal st.d line (raw :: rest) = accumFinal st.d line rest := by
          simp only [accumFinal, hcm, if_true]
        rw [hAF]
        exact hd
    · have hcm2 : isComment raw = false := by
        rcases Bool.eq_false_or_eq_true (isComment raw) with h | h
        · exact absurd h hcm
        · exact h
      by_cases hemp : isEmptyContinuationLine (trimComments raw)
      · rw [loop_some_empty specDispatch st raw rest sl line hasEmpty (trimComments raw) st.d
          hTraw hpl hcm2 hemp]
        simp only [stillIncomplete, hcm2, hemp, Bool.false_eq_true, if_false, if_true] at hSI
        obtain ⟨st2, ha, hb, hc, hd⟩ := ih { st with d := st.d, cur := st.cur + 1 }
          sl line true hpc hTrest hSI
        refine ⟨st2, ha, ?_, hc, ?_⟩
        · rw [hb]
          simp only [List.length_cons]
          omega
        · have hAF : accumFinal st.d line (raw :: rest) = accumFinal st.d line rest := by
            simp only [accumFinal, hcm2, hemp, Bool.false_eq_true, if_false, if_true]
          rw [hAF]
          exact hd
      · have hemp2 : isEmptyContinuationLine (trimComments raw) = false := by
          rcases Bool.eq_false_or_eq_true (isEmptyContinuationLine (trimComments raw)) with h | h
          · exact absurd h hemp
          · exact h
        rcases hcl : continuateLine (line ++ trimComments raw) st.d with ⟨line2, flag⟩
        rcases flag with _ | _
        · rw [loop_some_continue specDispatch st raw rest sl line hasEmpty (trimComments raw) st.d
            line2 hTraw hpl hcm2 hemp2 hcl]
          simp only [stillIncomplete, hcm2, hemp2, Bool.false_eq_true, if_false, hcl] at hSI
          obtain ⟨st2, ha, hb, hc, hd⟩ := ih { st with d := st.d, cur := st.cur + 1 }
            sl line2 hasEmpty hpc hTrest hSI
          refine ⟨st2, ha, ?_, hc, ?_⟩
          · rw [hb]
            simp only [List.length_cons]
            omega
          · have hAF : accumFinal st.d line (raw :: rest) = accumFinal st.d line2 rest := by
              simp only [accumFinal, hcm2, hemp2, Bool.false_eq_true, if_false, hcl]
            rw [hAF]
            exact hd
        · simp only [stillIncomplete, hcm2, hemp2, Bool.false_eq_true, if_false, hcl] at hSI

/-- Claim C10: an input whose last statement is still incomplete when the
input is exhausted produces no unterminated-continuation error: the loop
dispatches the accumulated logical line anyway (the trailing escape was
already stripped by `continuateLine`), and the resulting child node ends
at the last physical line read.  Stated for the continuation loop in
general, and for `Parse` on an input that is one single unterminated
statement. -/
theorem Parse_eof_mid_continuation :
    (∀ (rest : List String) (st : PState) (sl : Nat) (line : String) (hasEmpty : Bool),
      st.d.processingComplete = true →
      (∀ l ∈ rest, tooLongLine l = false) →
      stillIncomplete st.d line rest = true →
      ∃ st2, loop specDispatch st (some (sl, line, hasEmpty)) rest = .ok (st2, false) ∧
        st2.cur = st.cur + rest.length ∧
        st2.children = st.children ++
          [{ specNode (accumFinal st.d line rest) with
              startLine := (sl : Int), endLine := (st2.cur : Int) }]) ∧
    (∀ (l0 : String) (rest : List String) (line0 : String),
      matchEscapeDirective (trimWhitespace (stripBOM l0)) = none →
      (∀ l ∈ scannedLines (l0 :: rest), tooLongLine l = false) →
      continuateLine (trimComments (trimWhitespace (stripBOM l0))) dirClosed = (line0, false) →
      stillIncomplete dirClosed line0 rest = true →
      (Parse specDispatch (l0 :: rest)).2 = none ∧
      ∃ r, (Parse specDispatch (l0 :: rest)).1 = some r ∧
        r.AST.children = [{ specNode (accumFinal dirClosed line0 rest) with
          startLine := (1 : Int), endLine := ((1 + rest.length : Nat) : Int) }]) := by
  constructor
  · intro rest st sl line hasEmpty hpc hT hSI
    obtain ⟨st2, ha, hb, hc, hd⟩ := loop_eof_incomplete rest st sl line hasEmpty hpc hT hSI
    exact ⟨st2, ha, hb, hd⟩
  · intro l0 rest line0 h0 hT hcl hSI
    have hscan : scannedLines (l0 :: rest) = stripBOM l0 :: rest := rfl
    rw [hscan] at hT
    have hT0 : tooLongLine (stripBOM l0) = false := hT _ (List.mem_cons_self _ _)
    have hTrest : ∀ l ∈ rest, tooLongLine l = false :=
      fun l hl => hT l (List.mem_cons_of_mem _ hl)
    have hpl : processLine initState.d (stripBOM l0) true =
        .ok (trimComments (trimWhitespace (stripBOM l0)), dirClosed) := by
      unfold processLine
      simp only [if_true, possibleParserDirective_none_close _ _ h0]
      rfl
    have e0 := loop_none_incomplete specDispatch initState (stripBOM l0) rest
      (trimComments (trimWhitespace (stripBOM l0))) dirClosed line0 hT0 hpl hcl
    obtain ⟨st2, ha, hb, hc, hd⟩ := loop_eof_incomplete rest
      { initState with d := dirClosed, cur := initState.cur + 1 }
      (initState.cur + 1) line0 false rfl hTrest hSI
    have hrun : loop specDispatch initState none (scannedLines (l0 :: rest)) =
        .ok (st2, false) := by
      rw [hscan, e0, ha]
    have hb2 : st2.cur = 1 + rest.length := hb
    have hc2 : st2.rootStart = 1 := by
      rw [hc]
      simp [initState]
    rw [Parse_eq_of_loop specDispatch (l0 :: rest) st2 false hrun]
    rw [if_neg (by rw [hc2]; norm_num)]
    refine ⟨rfl, ⟨_, rfl, ?_⟩⟩
    simp only
    rw [hd, hb2]
    simp [initState]

/-- Witness for `Parse_eof_mid_continuation` at a two-line statement whose
second line still ends with the escape character at end of input. -/
theorem Parse_eof_mid_continuation_witness :
    (Parse specDispatch ["RUN a \\", "b \\"]).2 = none ∧
    ∃ r, (Parse specDispatch ["RUN a \\", "b \\"]).1 = some r ∧
      r.AST.children = [{ specNode (accumFinal dirClosed "RUN a " ["b \\"]) with
        startLine := (1 : Int), endLine := ((1 + ["b \\"].length : Nat) : Int) }] :=
  Parse_eof_mid_continuation.2 "RUN a \\" ["b \\"] "RUN a "
    (by decide) (by decide) (by decide) (by decide)

end Buildkit